import Mathlib

/-!
Verification of the decision-making core of the self-driving-car bot.

Shallow embedding conventions: Rust f32 values are modelled by exact
rationals; vectors are records of rationals; fallible operations return
Option or Except.  Code from crates of the repository that are not part
of the analyzed sources (the simulate crate, routing models) is modelled
from the specification and marked as such in the doc comment.
-/

namespace SDC

/-- A 3-dimensional vector of the nalgebra Point3/Vector3 kind, with
exact rational coordinates standing in for f32. -/
structure Vec3 where
  x : ℚ
  y : ℚ
  z : ℚ
deriving DecidableEq

/-- Componentwise subtraction, as nalgebra implements for points and
vectors. -/
def Vec3.sub (a b : Vec3) : Vec3 := ⟨a.x - b.x, a.y - b.y, a.z - b.z⟩

/-- The squared norm of the 2-dimensional projection of a vector; the
source computes to_2d().norm() with a square root, and comparisons of
that norm against a nonnegative threshold c are equivalent to comparing
this square against c^2. -/
def Vec3.sqNorm2d (v : Vec3) : ℚ := v.x ^ 2 + v.y ^ 2

/-- src/brain/src/helpers/ball.rs: BallFrame { t, dt, loc, vel }. -/
structure BallFrame where
  t : ℚ
  dt : ℚ
  loc : Vec3
  vel : Vec3
deriving DecidableEq

/-- src/brain/src/helpers/ball.rs: BallTrajectory wraps a non-empty
vector of frames (BallTrajectory::new asserts non-emptiness). -/
structure BallTrajectory where
  frames : List BallFrame
  nonempty : frames ≠ []

/-- BallTrajectory::start — the first frame. -/
def BallTrajectory.start (traj : BallTrajectory) : BallFrame :=
  traj.frames.head traj.nonempty

/-- BallTrajectory::last — the last frame. -/
def BallTrajectory.lastFrame (traj : BallTrajectory) : BallFrame :=
  traj.frames.getLast traj.nonempty

/-- The loop of Rust slice::binary_search_by_key, specialized to
rational keys searched for a target key: left/right bounds narrow with
mid = left + (right - left) / 2; Less moves left past mid, Greater
moves right to mid, Equal returns Ok(mid).  Sum.inl is Ok, Sum.inr is
Err (the insertion point). -/
def bsearchLoop (keys : List ℚ) (target : ℚ) : Nat → Nat → Nat → Sum Nat Nat
  | 0, left, _ => Sum.inr left
  | Nat.succ fuel, left, right =>
    if left < right then
      if keys.getD (left + (right - left) / 2) 0 < target then
        bsearchLoop keys target fuel (left + (right - left) / 2 + 1) right
      else if target < keys.getD (left + (right - left) / 2) 0 then
        bsearchLoop keys target fuel left (left + (right - left) / 2)
      else
        Sum.inl (left + (right - left) / 2)
    else
      Sum.inr left

/-- BallTrajectory::at_time — binary search on frame times for the
first frame at or after t; None when the index lands past the end.
The loop narrows the window by at least one index per iteration, so a
fuel of length + 1 always lets it run to completion. -/
def BallTrajectory.at_time (traj : BallTrajectory) (t : ℚ) : Option BallFrame :=
  let i := match bsearchLoop (traj.frames.map (fun f => f.t)) t
      (traj.frames.length + 1) 0 traj.frames.length with
    | Sum.inl i => i
    | Sum.inr i => i
  if h : i < traj.frames.length then some (traj.frames.get ⟨i, h⟩) else none

/-- BallTrajectory::at_time_or_last. -/
def BallTrajectory.at_time_or_last (traj : BallTrajectory) (t : ℚ) : BallFrame :=
  (traj.at_time t).getD traj.lastFrame

/-- BallTrajectory::hacky_expensive_slice — drop the frames before the
first one with t >= delay and re-zero time at that frame; when no frame
qualifies, keep just a copy of the last frame.  The position/index
slicing of the source is expressed with dropWhile, which stops at
exactly the first frame satisfying t >= delay. -/
def BallTrajectory.hacky_expensive_slice (traj : BallTrajectory) (delay : ℚ) :
    BallTrajectory :=
  match traj.frames.dropWhile (fun f => decide (f.t < delay)) with
  | [] => ⟨[traj.lastFrame], by simp⟩
  | f :: rest =>
      ⟨(f :: rest).map (fun g => { g with t := g.t - f.t }), by simp⟩

/-- The trajectory time-ascending invariant: strictly increasing frame
timestamps. -/
def BallTrajectory.sorted (traj : BallTrajectory) : Prop :=
  traj.frames.Pairwise (fun a b => a.t < b.t)

/-! ## Scenario possession race (src/brain/src/strategy/scenario.rs) -/

/-- src/brain/src/helpers/intercept.rs (struct fields as used by
scenario.rs): a candidate interception. -/
structure NaiveIntercept where
  time : ℚ
  ball_loc : Vec3
  ball_vel : Vec3
  car_loc : Vec3
  car_speed : ℚ
deriving DecidableEq

/-- Scenario::POSSESSION_SATURATED. -/
def POSSESSION_SATURATED : ℚ := 5

/-- Rust Iterator::min_by_key: the element with the minimum key; on
ties the first such element is kept (the fold replaces the accumulator
only on a strictly smaller key). -/
def minByKey {α : Type} (key : α → ℚ) : List α → Option α
  | [] => none
  | x :: xs => some (xs.foldl (fun acc y => if key y < key acc then y else acc) x)

/-- Scenario::race, parametric in the blitz simulation.  The function
simBlitz stands for simulate_ball_blitz applied to the ball prediction
of the tick (the Car1D race itself lives in the simulate crate, outside
the analyzed sources); the race logic of scenario.rs is embedded
verbatim: my blitz result, the enemy with the earliest intercept, and
the possession margin, which saturates unless both sides intercept. -/
def race {α : Type} (simBlitz : α → Option NaiveIntercept) (me : α)
    (enemies : List α) :
    Option NaiveIntercept × Option (α × NaiveIntercept) × ℚ :=
  let blitz_me := simBlitz me
  let blitz_enemy :=
    minByKey (fun p => p.2.time)
      (enemies.filterMap (fun e => (simBlitz e).map (fun i => (e, i))))
  let possession :=
    match blitz_me, blitz_enemy with
    | some m, some (_, en) => en.time - m.time
    | _, _ => POSSESSION_SATURATED
  (blitz_me, blitz_enemy, possession)

/-- Scenario::possession — the cached value filled by race. -/
def possession {α : Type} (simBlitz : α → Option NaiveIntercept) (me : α)
    (enemies : List α) : ℚ :=
  (race simBlitz me enemies).2.2

/-! ## Ground straight planner (src/brain/src/routing/plan/ground_straight.rs) -/

/-- A 2-dimensional point of the nalgebra Point2 kind. -/
structure Vec2 where
  x : ℚ
  y : ℚ
deriving DecidableEq

/-- Modelled from the spec: RoutePlanError of routing/models.rs is not
among the analyzed sources; the spec lists the typed reasons (not on
flat ground, currently skidding, not facing target, moving too fast for
a dodge), and the skidding variant carries a suggested recovery target
location, as the call sites in ground_straight.rs show. -/
inductive RoutePlanError where
  | MustBeOnFlatGround
  | MustNotBeSkidding (recover_target_loc : Vec2)
  | MustBeFacingTarget
  | MovingTooFast
deriving DecidableEq

/-- Modelled from the spec: a RoutePlan as used by ground_straight.rs
exposes the duration of its root segment (fastest keys on
segment.duration()); the segment internals live in routing/segments.rs,
outside the analyzed sources. -/
structure RoutePlan where
  duration : ℚ
deriving DecidableEq

/-- Modelled from the spec: the start state facts queried by the guard
macros.  NotOnFlatGround and IsSkidding of routing/recover.rs are not
among the analyzed sources; they are boolean predicates of the start
car state, so the context carries their values directly. -/
structure PlanningContext where
  onFlatGround : Bool
  skidding : Bool
deriving DecidableEq

/-- GroundStraightPlanner fields (target_loc, target_time, end_chop;
the mode field is irrelevant to the embedded logic). -/
structure GroundStraightPlanner where
  target_loc : Vec2
  target_time : Option ℚ
  end_chop : ℚ
deriving DecidableEq

/-- ground_straight.rs: at_least_one_ok — collect the Ok values in
order and remember the last error seen; if no Ok remains, return that
error.  The Rust code unwraps the error, which can only panic when the
input iterator is empty; the Ok [] result of that corner models the
unreachable branch (the caller always passes two results). -/
def at_least_one_ok {T E : Type} (results : List (Except E T)) : Except E (List T) :=
  let oks := results.filterMap (fun r => r.toOption)
  let lastErr := (results.filterMap (fun r =>
    match r with
    | Except.error e => some e
    | Except.ok _ => none)).getLast?
  if oks.isEmpty then
    match lastErr with
    | some e => Except.error e
    | none => Except.ok []
  else
    Except.ok oks

/-- ground_straight.rs: fastest — minimum by segment duration (the Rust
code unwraps; the caller guarantees a non-empty list). -/
def fastest (steps : List RoutePlan) : Option RoutePlan :=
  minByKey (fun s => s.duration) steps

/-- GroundStraightPlanner::plan.  The two candidate planners
(StraightSimple and StraightWithDodge, applied to the same target) are
passed as functions of the planning context, since their bodies depend
on the segment types of the simulate crate; the guard order, the
at_least_one_ok policy and the fastest selection are embedded verbatim.
The final match arm models the unreachable empty-success case (the
Rust code would have panicked inside at_least_one_ok already). -/
def GroundStraightPlanner.plan (self : GroundStraightPlanner)
    (simple withDodge : PlanningContext → Except RoutePlanError RoutePlan)
    (ctx : PlanningContext) : Except RoutePlanError RoutePlan :=
  if ctx.onFlatGround = false then
    Except.error RoutePlanError.MustBeOnFlatGround
  else if ctx.skidding = true then
    Except.error (RoutePlanError.MustNotBeSkidding self.target_loc)
  else
    let plans := [simple ctx, withDodge ctx]
    match at_least_one_ok plans with
    | Except.error e => Except.error e
    | Except.ok oks =>
        match fastest oks with
        | some p => Except.ok p
        | none => Except.ok { duration := 0 }

/-! ## 1-D car simulation and the straight-dodge calculator
(src/brain/src/routing/plan/ground_straight.rs; the Car1D and
CarForwardDodge types live in the simulate crate, outside the analyzed
sources, and are modelled from the spec). -/

/-- rl::PHYSICS_DT — the fixed physics timestep (120 Hz per the spec). -/
def PHYSICS_DT : ℚ := 1 / 120

/-- Modelled from the spec: full-throttle acceleration of the simple
1-D kinematic car model (a tunable constant of the simulate crate). -/
def THROTTLE_ACCEL : ℚ := 1600

/-- Modelled from the spec: extra acceleration while boosting. -/
def BOOST_ACCEL : ℚ := 1000

/-- Modelled from the spec: boost consumed per second of boosting. -/
def BOOST_USAGE : ℚ := 100 / 3

/-- Modelled from the spec: coasting deceleration with zero throttle. -/
def COAST_DECEL : ℚ := 525

/-- Modelled from the spec: the speed cap of the car model. -/
def MAX_SPEED : ℚ := 2300

/-- Modelled from the spec: Car1D, the simple 1-D kinematic car
simulation of the simulate crate — elapsed time, distance traveled,
current speed and remaining boost. -/
structure Car1D where
  time : ℚ
  dist : ℚ
  speed : ℚ
  boost : ℚ
deriving DecidableEq

/-- Car1D::new. -/
def Car1D.mk0 (speed : ℚ) : Car1D := ⟨0, 0, speed, 0⟩

/-- Car1D::with_boost. -/
def Car1D.with_boost (c : Car1D) (boost : ℚ) : Car1D := { c with boost := boost }

/-- Modelled from the spec: one physics step of the car model.
Distance advances by the pre-step speed; the new speed accelerates with
the throttle (plus boost when available), or decays toward zero when
coasting, clamped into [0, MAX_SPEED]. -/
def Car1D.step (c : Car1D) (dt throttle : ℚ) (boostOn : Bool) : Car1D :=
  let useBoost := boostOn && decide (0 < c.boost)
  let accel :=
    if throttle = 0 && !useBoost then -COAST_DECEL
    else throttle * THROTTLE_ACCEL + (if useBoost then BOOST_ACCEL else 0)
  { time := c.time + dt
    dist := c.dist + c.speed * dt
    speed := max 0 (min (c.speed + accel * dt) MAX_SPEED)
    boost := if useBoost then max 0 (c.boost - BOOST_USAGE * dt) else c.boost }

/-- n repeated physics steps with fixed inputs. -/
def Car1D.stepN (c : Car1D) (n : Nat) (dt throttle : ℚ) (boostOn : Bool) : Car1D :=
  match n with
  | 0 => c
  | Nat.succ m => (c.step dt throttle boostOn).stepN m dt throttle boostOn

/-- Modelled from the spec: Car1D::multi_step(duration, dt, throttle,
boost) — advance by physics steps until the requested duration is
covered (the number of steps is the ceiling of duration / dt). -/
def Car1D.multi_step (c : Car1D) (duration dt throttle : ℚ) (boostOn : Bool) : Car1D :=
  c.stepN (Int.toNat ⌈duration / dt⌉) dt throttle boostOn

/-- Modelled from the spec: CarForwardDodge1D — the outcome of a
single forward dodge started at a given speed: landing speed, distance
covered by the dodge, and its duration (fixed constants of the dodge
mechanic; the spec treats the exact dodge formulas as parameters). -/
structure CarForwardDodge1D where
  end_speed : ℚ
  end_dist : ℚ
  duration : ℚ
deriving DecidableEq

/-- Modelled from the spec: CarForwardDodge::calc_1d — a forward dodge
adds a fixed speed impulse (capped just below the speed cap) and covers
a distance proportional to the entry speed over a fixed duration. -/
def CarForwardDodge.calc_1d (speed : ℚ) : CarForwardDodge1D :=
  { end_speed := min (speed + 500) 2299
    end_dist := speed * (13 / 10) + 325
    duration := 13 / 10 }

/-- ground_straight.rs: StraightDodgeCalculator.  The start car state
enters only through its 2-D speed, boost, and straight-line distance to
the target (target_traveled of the source), so those three rationals
stand for the start state and target location. -/
structure StraightDodgeCalculator where
  start_speed : ℚ
  start_boost : ℚ
  target_dist : ℚ
  target_time : Option ℚ
  end_chop : ℚ
deriving DecidableEq

/-- ground_straight.rs: StraightDodge — one scored candidate. -/
structure StraightDodge where
  approach_distance : ℚ
  dodge : CarForwardDodge1D
  score : ℚ
deriving DecidableEq

/-- The GRANULARITY performance knob of StraightDodgeCalculator::collect. -/
def GRANULARITY : ℚ := 1 / 10

/-- The least positive speed any full-throttle step guarantees:
one step from a nonnegative speed reaches at least this. -/
def SMIN : ℚ := min (THROTTLE_ACCEL * PHYSICS_DT) MAX_SPEED

/-- Fuel bound for the blitz loop: enough steps to cover the remaining
distance at the guaranteed floor speed, plus slack for the first step. -/
def blitzFuel (c : Car1D) (target : ℚ) : Nat :=
  2 + Int.toNat ⌈(target - c.dist) / (SMIN * PHYSICS_DT)⌉

/-- The while-loop of StraightDodgeCalculator::evaluate that blitzes
until the target distance is reached, written with explicit fuel so
that it computes; the fuel bound is proved sufficient separately.
Returns the number of steps taken. -/
def blitzLoopAux (target : ℚ) : Nat → Car1D → Nat
  | 0, _ => 0
  | Nat.succ fuel, c =>
      if target ≤ c.dist then 0
      else blitzLoopAux target fuel (c.step PHYSICS_DT 1 true) + 1

/-- Steps taken by the blitz loop from car c until its distance reaches
the target. -/
def blitzSteps (c : Car1D) (target : ℚ) : Nat :=
  blitzLoopAux target (blitzFuel c target) c

/-- StraightDodgeCalculator::evaluate: reject the dodge when it misses
the target-time or overshoot requirements, otherwise score it by the
total time to reach the target if blitzing after the landing. -/
def StraightDodgeCalculator.evaluate (sdc : StraightDodgeCalculator)
    (approach : Car1D) : Option StraightDodge :=
  let dodge := CarForwardDodge.calc_1d approach.speed
  let dodge_end := ((Car1D.mk0 dodge.end_speed).with_boost approach.boost).multi_step
    sdc.end_chop PHYSICS_DT 0 false
  let total_time := approach.time + dodge.duration + dodge_end.time
  let timeOk :=
    match sdc.target_time with
    | some tt => decide (total_time ≤ tt)
    | none => true
  if timeOk = false then none
  else
    let total_dist := approach.dist + dodge.end_dist + dodge_end.dist
    if sdc.target_dist ≤ total_dist then none
    else
      let coastOk :=
        match sdc.target_time with
        | some tt =>
            let coast := ((Car1D.mk0 dodge.end_speed).with_boost approach.boost).multi_step
              (tt - total_time) PHYSICS_DT 0 false
            decide (total_dist + coast.dist ≤ sdc.target_dist)
        | none => true
      if coastOk = false then none
      else
        let blitz0 := (Car1D.mk0 dodge.end_speed).with_boost approach.boost
        let n := blitzSteps blitz0 (sdc.target_dist - total_dist)
        let score := total_time + (blitz0.stepN n PHYSICS_DT 1 true).time
        some { approach_distance := approach.dist, dodge := dodge, score := score }

/-- The approach car after n GRANULARITY-sized multi_steps of
full-throttle driving from the start state, as the collect loop
produces it. -/
def StraightDodgeCalculator.approachCar (sdc : StraightDodgeCalculator)
    (n : Nat) : Car1D :=
  ((Car1D.mk0 sdc.start_speed).with_boost sdc.start_boost).stepN
    (n * Int.toNat ⌈GRANULARITY / PHYSICS_DT⌉) PHYSICS_DT 1 true

/-- The collect loop with explicit fuel: iteration j advances the
approach by one granularity step (to approachCar (j+1)), evaluates the
dodge there, pushes successes and stops at the first rejection.  The
loop of the source also stops when a caller-specified target time is
exhausted; claims about the calculator are made with target_time =
none, where that check never fires, and the fuel bound is proved
sufficient separately. -/
def StraightDodgeCalculator.collectAux (sdc : StraightDodgeCalculator) :
    Nat → Nat → List StraightDodge
  | 0, _ => []
  | Nat.succ fuel, n =>
      match sdc.evaluate (sdc.approachCar (n + 1)) with
      | some d => d :: sdc.collectAux fuel (n + 1)
      | none => []

/-- Fuel bound for the collect loop: the approach distance alone
eventually reaches the target distance. -/
def collectFuel (sdc : StraightDodgeCalculator) : Nat :=
  2 + Int.toNat ⌈sdc.target_dist / (SMIN * PHYSICS_DT)⌉

/-- StraightDodgeCalculator::collect (with target_time = none; see
collectAux). -/
def StraightDodgeCalculator.collect (sdc : StraightDodgeCalculator) :
    List StraightDodge :=
  sdc.collectAux (collectFuel sdc) 0

/-- StraightWithDodge::plan chooses the candidate with the minimum
score (min_by_key keeps the first on ties). -/
def StraightDodgeCalculator.chosen (sdc : StraightDodgeCalculator) :
    Option StraightDodge :=
  minByKey (fun d => d.score) sdc.collect

/-! ## Wavedash maneuver (src/brain/src/behavior/movement/wavedash.rs) -/

/-- The exact rational value of the f32 constant PI. -/
def PI32 : ℚ := 13176795 / 4194304

/-- rl::PHYSICS_TICK_FREQ. -/
def PHYSICS_TICK_FREQ : ℚ := 120

/-- wavedash.rs: JUMP_INPUT_TIME. -/
def JUMP_INPUT_TIME : ℚ := 2 / PHYSICS_TICK_FREQ

/-- wavedash.rs: PITCH_ADJUSTMENT_TIME. -/
def PITCH_ADJUSTMENT_TIME : ℚ := 8 / PHYSICS_TICK_FREQ

/-- wavedash.rs: DODGE_WAIT_TIME. -/
def DODGE_WAIT_TIME : ℚ := 98 / PHYSICS_TICK_FREQ

/-- wavedash.rs: FOLLOW_THROUGH_TIME. -/
def FOLLOW_THROUGH_TIME : ℚ := 12 / PHYSICS_TICK_FREQ

/-- wavedash.rs: enum Phase. -/
inductive WPhase where
  | Jump
  | Adjust
  | Wait
  | Dodge
  | FollowThrough
  | Finished
deriving DecidableEq

/-- The position of a phase in the declared order. -/
def WPhase.rank : WPhase → Nat
  | WPhase.Jump => 0
  | WPhase.Adjust => 1
  | WPhase.Wait => 2
  | WPhase.Dodge => 3
  | WPhase.FollowThrough => 4
  | WPhase.Finished => 5

/-- The control-command fields of halfway_house::PlayerInput that the
wavedash writes (the rest stay at their defaults). -/
structure PlayerInput where
  Throttle : ℚ
  Pitch : ℚ
  Jump : Bool
  Handbrake : Bool
deriving DecidableEq

/-- PlayerInput::default(). -/
def PlayerInput.default0 : PlayerInput :=
  { Throttle := 0, Pitch := 0, Jump := false, Handbrake := false }

/-- strategy::Action, restricted to the variants Wavedash::execute_old
produces. -/
inductive WAction where
  | Yield (input : PlayerInput)
  | Abort
  | Return
deriving DecidableEq

/-- The mutable fields of struct Wavedash. -/
structure WavedashState where
  phase_start_time : Option ℚ
  starting_pitch : Option ℚ
  phase : WPhase
  throttle : ℚ
deriving DecidableEq

/-- Wavedash::new(). -/
def WavedashState.mk0 : WavedashState :=
  { phase_start_time := none, starting_pitch := none
    phase := WPhase.Jump, throttle := 1 }

/-- The per-tick context facts Wavedash::execute_old reads: game clock,
car pitch, car height and vertical speed, wheel contact, and whether
the double jump was consumed. -/
structure WavedashCtx where
  time : ℚ
  pitch : ℚ
  locZ : ℚ
  velZ : ℚ
  onGround : Bool
  doubleJumped : Bool
deriving DecidableEq

/-- Wavedash::execute_old.  The get_or_insert calls at entry initialize
the phase start time and starting pitch on first use; a phase
transition records the current game time as the new phase start and
re-enters the function within the same tick (the self-recursion of the
source), so the result pairs the emitted action with the updated
state. -/
def wavedashExec (st : WavedashState) (ctx : WavedashCtx) :
    WAction × WavedashState :=
  let pst := st.phase_start_time.getD ctx.time
  let sp := st.starting_pitch.getD ctx.pitch
  let st1 : WavedashState :=
    { st with phase_start_time := some pst, starting_pitch := some sp }
  let pitch_delta := ctx.pitch - sp
  let elapsed := ctx.time - pst
  match _hp : st1.phase with
  | WPhase.Jump =>
      if JUMP_INPUT_TIME ≤ elapsed then
        wavedashExec
          { st1 with
            phase := WPhase.Adjust
            phase_start_time := some ctx.time } ctx
      else if ctx.onGround = false then
        (WAction.Abort, st1)
      else
        (WAction.Yield
          { PlayerInput.default0 with
            Jump := true
            Pitch := 1
            Throttle := st1.throttle }, st1)
  | WPhase.Adjust =>
      if PI32 / 360 ≤ pitch_delta then
        wavedashExec
          { st1 with
            phase := WPhase.Wait
            phase_start_time := some ctx.time } ctx
      else if PITCH_ADJUSTMENT_TIME * 2 < elapsed then
        (WAction.Abort, st1)
      else
        (WAction.Yield
          { PlayerInput.default0 with
            Pitch := 1
            Throttle := st1.throttle }, st1)
  | WPhase.Wait =>
      if ctx.locZ ≤ 39 ∧ ctx.velZ < 0 then
        wavedashExec
          { st1 with
            phase := WPhase.Dodge
            phase_start_time := some ctx.time } ctx
      else if DODGE_WAIT_TIME * (5 / 4) < elapsed then
        (WAction.Abort, st1)
      else if ctx.doubleJumped = true then
        (WAction.Abort, st1)
      else
        (WAction.Yield { PlayerInput.default0 with Throttle := st1.throttle }, st1)
  | WPhase.Dodge =>
      if JUMP_INPUT_TIME ≤ elapsed then
        wavedashExec
          { st1 with
            phase := WPhase.FollowThrough
            phase_start_time := some ctx.time } ctx
      else if ctx.onGround = true then
        (WAction.Abort, st1)
      else
        (WAction.Yield
          { PlayerInput.default0 with
            Pitch := -1
            Jump := true
            Handbrake := true
            Throttle := st1.throttle }, st1)
  | WPhase.FollowThrough =>
      if FOLLOW_THROUGH_TIME ≤ elapsed then
        wavedashExec { st1 with phase := WPhase.Finished } ctx
      else
        (WAction.Yield { PlayerInput.default0 with Handbrake := true }, st1)
  | WPhase.Finished => (WAction.Return, st1)
termination_by 5 - st.phase.rank
decreasing_by
  all_goals simp_all [WPhase.rank]

/-! ## Ball-trajectory divergence rule
(src/brain/src/rules/same_ball_trajectory.rs) -/

/-- same_ball_trajectory.rs: ERROR_THRESHOLD. -/
def ERROR_THRESHOLD : ℚ := 50

/-- same_ball_trajectory.rs: struct Prediction — the recorded snapshot:
absolute game time of the predicted instant and the predicted ball
location. -/
structure SBTPrediction where
  t : ℚ
  loc : Vec3
deriving DecidableEq

/-- same_ball_trajectory.rs: struct SameBallTrajectory. -/
structure SBTState where
  prediction : Option SBTPrediction
deriving DecidableEq

/-- The per-tick context SameBallTrajectory reads: the game clock and
the ball prediction of the tick (Scenario::ball_prediction). -/
structure SBTCtx where
  time : ℚ
  traj : BallTrajectory

/-- SameBallTrajectory::update_snapshot: record the predicted frame
0.1 seconds ahead, keyed by absolute game time. -/
def SBTupdate_snapshot (ctx : SBTCtx) : SBTPrediction :=
  let frame := ctx.traj.at_time_or_last (1 / 10)
  { t := ctx.time + frame.t, loc := frame.loc }

/-- SameBallTrajectory::eval_vel_changed: with no snapshot, no
divergence; otherwise compare the snapshot location against the frame
of the current prediction at the same absolute instant (falling back to
the first frame when the instant is out of prediction range).  The
source compares the 2-D distance against ERROR_THRESHOLD; squared
distance against squared threshold is the same comparison in exact
arithmetic. -/
def SBTeval_vel_changed (st : SBTState) (ctx : SBTCtx) : Bool :=
  match st.prediction with
  | none => false
  | some p =>
      let rel_time := p.t - ctx.time
      let frame := (ctx.traj.at_time rel_time).getD ctx.traj.start
      decide (ERROR_THRESHOLD ^ 2 ≤ (p.loc.sub frame.loc).sqNorm2d)

/-- The Action variants SameBallTrajectory::execute_old returns. -/
inductive SBTAction where
  | Abort
deriving DecidableEq

/-- SameBallTrajectory::execute_old: abort on divergence, otherwise
record a fresh snapshot and yield nothing. -/
def SBTexecute_old (st : SBTState) (ctx : SBTCtx) :
    Option SBTAction × SBTState :=
  if SBTeval_vel_changed st ctx then
    (some SBTAction.Abort, st)
  else
    (none, { prediction := some (SBTupdate_snapshot ctx) })

/-! ## Angle normalization (src/brain/src/utils/geometry/mod.rs) -/

/-- Rust f32 truncation toward zero, on exact rationals. -/
def ratTrunc (q : ℚ) : ℤ := if 0 ≤ q then ⌊q⌋ else ⌈q⌉

/-- The Rust % operator on floats: remainder with the sign of the
dividend, x - y * trunc(x / y). -/
def rustRem (x y : ℚ) : ℚ := x - y * (ratTrunc (x / y) : ℚ)

/-- geometry/mod.rs: ExtendF32::normalize_angle, in exact-rational
arithmetic with the exact f32 value of PI. -/
def normalize_angle (x : ℚ) : ℚ :=
  let result := rustRem x (PI32 * 2)
  if result < -PI32 then result + PI32 * 2
  else if PI32 ≤ result then result - PI32 * 2
  else result

/-! ## Circle tangent points (src/brain/src/utils/geometry/mod.rs)

This one computation is embedded over the reals because the tangent
point coordinates involve a genuine square root.  The source computes
with f32 and tests the first coordinate for NaN; with finite inputs the
NaN arises exactly when the square-root argument is negative, or when
the denominator (the squared center distance) is zero, and that is the
condition tested here. -/

open Classical in
/-- geometry/mod.rs: circle_point_tangents(center, radius, point) with
center (a, b) and point (xp, yp), following the source formulas. -/
noncomputable def circle_point_tangents (a b r xp yp : ℝ) :
    Option ((ℝ × ℝ) × (ℝ × ℝ)) :=
  let dd := (xp - a) ^ 2 + (yp - b) ^ 2
  if dd - r ^ 2 < 0 ∨ dd = 0 then none
  else
    let s := Real.sqrt (dd - r ^ 2)
    let xpm := r * (yp - b) * s
    let x1 := (r ^ 2 * (xp - a) + xpm) / dd + a
    let x2 := (r ^ 2 * (xp - a) - xpm) / dd + a
    let ymp := r * (xp - a) * s
    let y1 := (r ^ 2 * (yp - b) - ymp) / dd + b
    let y2 := (r ^ 2 * (yp - b) + ymp) / dd + b
    some ((x1, y1), (x2, y2))

/-- The Euclidean distance between two planar points, used to state the
inside/outside conditions of the tangent computation. -/
noncomputable def planarDist (x1 y1 x2 y2 : ℝ) : ℝ :=
  Real.sqrt ((x1 - x2) ^ 2 + (y1 - y2) ^ 2)

/-! ## Concrete inputs for witnesses and counterexamples -/

/-- A throwaway frame constructor for the example trajectories. -/
def mkFrame (t : ℚ) (x : ℚ) : BallFrame :=
  { t := t, dt := 1 / 120, loc := ⟨x, 0, 0⟩, vel := ⟨0, 0, 0⟩ }

/-- A two-frame example trajectory with timestamps 0 and 1. -/
def exTraj : BallTrajectory :=
  ⟨[mkFrame 0 0, mkFrame 1 100], by simp⟩

/-- An example scored dodge calculator with no target time, used to
evaluate the dodge-insertion search concretely. -/
def exCalc (chop : ℚ) : StraightDodgeCalculator :=
  { start_speed := 2299, start_boost := 0, target_dist := 3700
    target_time := none, end_chop := chop }

/-- An example ground-straight planner. -/
def exPlanner : GroundStraightPlanner :=
  { target_loc := ⟨10, 20⟩, target_time := none, end_chop := 0 }

/-! # Theorems -/

/-- Claim C9: for every input x (in exact arithmetic), normalize_angle
x lies in the half-open interval [-PI, PI) and differs from x by an
integer multiple of 2 * PI. -/
theorem normalize_angle_range_and_period (x : ℚ) :
    -PI32 ≤ normalize_angle x ∧ normalize_angle x < PI32 ∧
      ∃ k : ℤ, normalize_angle x - x = (k : ℚ) * (2 * PI32) := by
  have hpi : (0 : ℚ) < PI32 := by norm_num [PI32]
  have hy : (0 : ℚ) < PI32 * 2 := by linarith
  have hx : x = (x / (PI32 * 2)) * (PI32 * 2) := by
    field_simp
  have hr : -(PI32 * 2) < rustRem x (PI32 * 2) ∧ rustRem x (PI32 * 2) < PI32 * 2 := by
    unfold rustRem ratTrunc
    by_cases h0 : 0 ≤ x / (PI32 * 2)
    · rw [if_pos h0]
      have h1 := Int.floor_le (x / (PI32 * 2))
      have h2 := Int.lt_floor_add_one (x / (PI32 * 2))
      constructor <;> nlinarith
    · rw [if_neg h0]
      have h1 := Int.le_ceil (x / (PI32 * 2))
      have h2 := Int.ceil_lt_add_one (x / (PI32 * 2))
      constructor <;> nlinarith
  have hform : rustRem x (PI32 * 2) =
      x - (PI32 * 2) * ((ratTrunc (x / (PI32 * 2)) : ℤ) : ℚ) := rfl
  unfold normalize_angle
  simp only []
  split_ifs with h1 h2
  · refine ⟨by linarith [hr.1], by linarith [hr.1, hr.2], ⟨1 - ratTrunc (x / (PI32 * 2)), ?_⟩⟩
    rw [hform]
    push_cast
    ring
  · refine ⟨by linarith [hr.1, hr.2], by linarith [hr.2], ⟨-1 - ratTrunc (x / (PI32 * 2)), ?_⟩⟩
    rw [hform]
    push_cast
    ring
  · refine ⟨by linarith, by linarith, ⟨-ratTrunc (x / (PI32 * 2)), ?_⟩⟩
    rw [hform]
    push_cast
    ring

/-- Claim C1: the possession value is the saturation constant when
neither side has a feasible blitz intercept, and also when only the
controlled car has one; when both sides intercept, it is the best
enemy intercept time minus the controlled car intercept time. -/
theorem scenario_possession_cases {α : Type} (simBlitz : α → Option NaiveIntercept)
    (me : α) (enemies : List α) :
    (simBlitz me = none → (∀ e ∈ enemies, simBlitz e = none) →
      possession simBlitz me enemies = POSSESSION_SATURATED)
    ∧ (∀ m, simBlitz me = some m → (∀ e ∈ enemies, simBlitz e = none) →
      possession simBlitz me enemies = POSSESSION_SATURATED)
    ∧ (∀ m e i, simBlitz me = some m →
      (race simBlitz me enemies).2.1 = some (e, i) →
      possession simBlitz me enemies = i.time - m.time) := by
  refine ⟨?_, ?_, ?_⟩
  · intro hme hen
    have hfm : enemies.filterMap (fun e => (simBlitz e).map (fun i => (e, i))) = [] := by
      rw [List.filterMap_eq_nil_iff]
      intro a ha
      rw [hen a ha]
      rfl
    simp [possession, race, hme, hfm, minByKey]
  · intro m hme hen
    have hfm : enemies.filterMap (fun e => (simBlitz e).map (fun i => (e, i))) = [] := by
      rw [List.filterMap_eq_nil_iff]
      intro a ha
      rw [hen a ha]
      rfl
    simp [possession, race, hme, hfm, minByKey]
  · intro m e i hme hrace
    simp only [possession, race] at hrace ⊢
    rw [hme] at *
    rw [hrace]

/-- Witness for C1 at a concrete instance with no intercepts. -/
theorem scenario_possession_cases_witness :
    possession (fun _ : ℕ => none) 0 [1] = POSSESSION_SATURATED :=
  (scenario_possession_cases (fun _ : ℕ => none) 0 [1]).1 rfl (by simp)

/-- Claim C4: with the guards passing, GroundStraightPlanner::plan
fails only when both candidates fail (with the last error), and
otherwise returns the success of minimal duration, preferring the
first candidate on ties. -/
theorem ground_straight_plan_policy (self : GroundStraightPlanner)
    (simple withDodge : PlanningContext → Except RoutePlanError RoutePlan)
    (ctx : PlanningContext) (hg : ctx.onFlatGround = true)
    (hs : ctx.skidding = false) :
    (∀ e1 e2, simple ctx = Except.error e1 → withDodge ctx = Except.error e2 →
      self.plan simple withDodge ctx = Except.error e2)
    ∧ (∀ p1 e2, simple ctx = Except.ok p1 → withDodge ctx = Except.error e2 →
      self.plan simple withDodge ctx = Except.ok p1)
    ∧ (∀ e1 p2, simple ctx = Except.error e1 → withDodge ctx = Except.ok p2 →
      self.plan simple withDodge ctx = Except.ok p2)
    ∧ (∀ p1 p2, simple ctx = Except.ok p1 → withDodge ctx = Except.ok p2 →
      self.plan simple withDodge ctx =
        Except.ok (if p2.duration < p1.duration then p2 else p1)) := by
  refine ⟨?_, ?_, ?_, ?_⟩ <;> intro a1 a2 h1 h2 <;>
    simp [GroundStraightPlanner.plan, hg, hs, h1, h2, at_least_one_ok,
      fastest, minByKey, Except.toOption]

/-- Witness for C4: both candidates succeed and the faster second
candidate wins. -/
theorem ground_straight_plan_policy_witness :
    GroundStraightPlanner.plan exPlanner (fun _ => Except.ok ⟨3⟩)
      (fun _ => Except.ok ⟨2⟩) ⟨true, false⟩ = Except.ok ⟨2⟩ := by
  have h := (ground_straight_plan_policy exPlanner (fun _ => Except.ok ⟨3⟩)
    (fun _ => Except.ok ⟨2⟩) ⟨true, false⟩ rfl rfl).2.2.2 ⟨3⟩ ⟨2⟩ rfl rfl
  simpa using h

/-- Claim C5: a skidding start state on flat ground makes
GroundStraightPlanner::plan fail with MustNotBeSkidding carrying the
requested target location. -/
theorem ground_straight_plan_skidding (self : GroundStraightPlanner)
    (simple withDodge : PlanningContext → Except RoutePlanError RoutePlan)
    (ctx : PlanningContext) (hg : ctx.onFlatGround = true)
    (hs : ctx.skidding = true) :
    self.plan simple withDodge ctx =
      Except.error (RoutePlanError.MustNotBeSkidding self.target_loc) := by
  simp [GroundStraightPlanner.plan, hg, hs]

/-- Witness for C5 at a concrete skidding context. -/
theorem ground_straight_plan_skidding_witness :
    GroundStraightPlanner.plan exPlanner (fun _ => Except.ok ⟨3⟩)
      (fun _ => Except.ok ⟨2⟩) ⟨true, true⟩ =
      Except.error (RoutePlanError.MustNotBeSkidding ⟨10, 20⟩) :=
  ground_straight_plan_skidding exPlanner (fun _ => Except.ok ⟨3⟩)
    (fun _ => Except.ok ⟨2⟩) ⟨true, true⟩ rfl rfl

/-- Invariant of the binary-search loop: on strictly sorted keys, with
a window that excludes only keys settled to be below (left of the
window) or above (right of the window) the target, the returned index
is the first position whose key is at least the target. -/
theorem bsearchLoop_inv (keys : List ℚ) (t : ℚ)
    (hsorted : List.Pairwise (fun a b => a < b) keys) :
    ∀ (fuel left right : Nat), right - left < fuel → left ≤ right →
      right ≤ keys.length →
      (∀ j (hj : j < keys.length), j < left → keys.get ⟨j, hj⟩ < t) →
      (∀ j (hj : j < keys.length), right ≤ j → t < keys.get ⟨j, hj⟩) →
      ∃ i, (match bsearchLoop keys t fuel left right with
            | Sum.inl k => k
            | Sum.inr k => k) = i ∧
        i ≤ keys.length ∧
        (∀ j (hj : j < keys.length), j < i → keys.get ⟨j, hj⟩ < t) ∧
        (∀ hi : i < keys.length, t ≤ keys.get ⟨i, hi⟩) := by
  have hpg : ∀ (j k : Nat) (hj : j < keys.length) (hk : k < keys.length),
      j < k → keys.get ⟨j, hj⟩ < keys.get ⟨k, hk⟩ := by
    intro j k hj hk hjk
    exact List.pairwise_iff_get.mp hsorted ⟨j, hj⟩ ⟨k, hk⟩ hjk
  intro fuel
  induction fuel with
  | zero => intro left right hfuel; omega
  | succ fuel ih =>
    intro left right hfuel hle hlen hlo hhi
    rw [bsearchLoop]
    by_cases hlr : left < right
    · rw [if_pos hlr]
      have hmid_lt : left + (right - left) / 2 < right := by omega
      have hmid_ge : left ≤ left + (right - left) / 2 := by omega
      have hmidlen : left + (right - left) / 2 < keys.length :=
        lt_of_lt_of_le hmid_lt hlen
      have hgd : keys.getD (left + (right - left) / 2) 0 =
          keys.get ⟨left + (right - left) / 2, hmidlen⟩ := by
        rw [List.getD_eq_getD_get?, List.get?_eq_get hmidlen]
        rfl
      rw [hgd]
      by_cases hk1 : keys.get ⟨left + (right - left) / 2, hmidlen⟩ < t
      · rw [if_pos hk1]
        refine ih (left + (right - left) / 2 + 1) right (by omega) (by omega) hlen
          ?_ hhi
        intro j hj hjlt
        rcases Nat.lt_or_ge j left with hc | hc
        · exact hlo j hj hc
        · rcases Nat.lt_or_ge j (left + (right - left) / 2) with hc2 | hc2
          · exact lt_trans (hpg j _ hj hmidlen hc2) hk1
          · have : j = left + (right - left) / 2 := by omega
            subst this
            exact hk1
      · rw [if_neg hk1]
        by_cases hk2 : t < keys.get ⟨left + (right - left) / 2, hmidlen⟩
        · rw [if_pos hk2]
          refine ih left (left + (right - left) / 2) (by omega) (by omega)
            (le_of_lt hmidlen) hlo ?_
          intro j hj hjge
          rcases Nat.lt_or_ge j right with hc | hc
          · rcases Nat.eq_or_lt_of_le hjge with hc2 | hc2
            · subst hc2
              exact hk2
            · exact lt_trans hk2 (hpg _ j hmidlen hj hc2)
          · exact hhi j hj hc
        · rw [if_neg hk2]
          refine ⟨left + (right - left) / 2, rfl, le_of_lt hmidlen, ?_, ?_⟩
          · intro j hj hjlt
            rcases Nat.lt_or_ge j left with hc | hc
            · exact hlo j hj hc
            · exact lt_of_lt_of_le (hpg j _ hj hmidlen hjlt) (not_lt.mp hk2)
          · intro hi
            exact not_lt.mp hk1
    · rw [if_neg hlr]
      have heq : left = right := by omega
      refine ⟨left, rfl, heq ▸ hlen, hlo, ?_⟩
      intro hi
      exact le_of_lt (hhi left hi (by omega))

/-- Claim C2: on a time-ascending trajectory, at_time t returns the
frame with smallest timestamp at least t, is None exactly when t
exceeds the last timestamp, and at_time_or_last always returns a frame
(the found one, or the last frame when at_time is None). -/
theorem at_time_spec (traj : BallTrajectory) (hs : traj.sorted) (t : ℚ) :
    (∀ f, traj.at_time t = some f →
      f ∈ traj.frames ∧ t ≤ f.t ∧ ∀ g ∈ traj.frames, t ≤ g.t → f.t ≤ g.t)
    ∧ (traj.at_time t = none ↔ traj.lastFrame.t < t)
    ∧ (∀ f, traj.at_time t = some f → traj.at_time_or_last t = f)
    ∧ (traj.at_time t = none → traj.at_time_or_last t = traj.lastFrame) := by
  have hlen0 : 0 < traj.frames.length := List.length_pos.mpr traj.nonempty
  have hfg : ∀ (j k : Nat) (hj : j < traj.frames.length)
      (hk : k < traj.frames.length), j < k →
      (traj.frames.get ⟨j, hj⟩).t < (traj.frames.get ⟨k, hk⟩).t := by
    intro j k hj hk hjk
    exact List.pairwise_iff_get.mp hs ⟨j, hj⟩ ⟨k, hk⟩ hjk
  have hkeys : (traj.frames.map (fun f => f.t)).Pairwise (fun a b => a < b) :=
    List.Pairwise.map _ (fun a b h => h) hs
  have hklen : (traj.frames.map (fun f => f.t)).length = traj.frames.length :=
    List.length_map _ _
  have hkget : ∀ (j : Nat) (hj : j < (traj.frames.map (fun f => f.t)).length),
      (traj.frames.map (fun f => f.t)).get ⟨j, hj⟩ =
        (traj.frames.get ⟨j, hklen ▸ hj⟩).t := by
    intro j hj
    simp [List.get_map]
  obtain ⟨i, hieq, hile, hlo, hhi⟩ := bsearchLoop_inv
    (traj.frames.map (fun f => f.t)) t hkeys
    (traj.frames.length + 1) 0 traj.frames.length
    (by omega) (Nat.zero_le _) (le_of_eq hklen.symm)
    (by intro j hj hc; omega)
    (by intro j hj hc; rw [hklen] at hj; omega)
  rw [hklen] at hile
  have hlo2 : ∀ (j : Nat) (hj : j < traj.frames.length), j < i →
      (traj.frames.get ⟨j, hj⟩).t < t := by
    intro j hj hji
    have := hlo j (hklen ▸ hj) hji
    rwa [hkget] at this
  have hhi2 : ∀ hi : i < traj.frames.length, t ≤ (traj.frames.get ⟨i, hi⟩).t := by
    intro hi
    have := hhi (hklen ▸ hi)
    rwa [hkget] at this
  have hlast : traj.lastFrame =
      traj.frames.get ⟨traj.frames.length - 1, by omega⟩ := by
    rw [BallTrajectory.lastFrame, List.getLast_eq_get]
  have hat : traj.at_time t =
      if h : i < traj.frames.length then some (traj.frames.get ⟨i, h⟩) else none := by
    rw [BallTrajectory.at_time]
    simp only [hieq]
  by_cases hcase : i < traj.frames.length
  · rw [hat, dif_pos hcase]
    refine ⟨?_, ?_, ?_, ?_⟩
    · intro f hf
      have hfeq : f = traj.frames.get ⟨i, hcase⟩ := by
        exact (Option.some_injective _ hf).symm
      subst hfeq
      refine ⟨List.get_mem _ _ _, hhi2 hcase, ?_⟩
      intro g hg hgt
      obtain ⟨⟨j, hj⟩, hgj⟩ := List.mem_iff_get.mp hg
      subst hgj
      rcases Nat.lt_or_ge j i with hc | hc
      · exact absurd hgt (not_le.mpr (hlo2 j hj hc))
      · rcases Nat.eq_or_lt_of_le hc with hc2 | hc2
        · subst hc2
          exact le_refl _
        · exact le_of_lt (hfg i j hcase hj hc2)
    · constructor
      · intro h
        exact absurd h (by simp)
      · intro h
        have := hhi2 hcase
        have hle2 : (traj.frames.get ⟨i, hcase⟩).t ≤ traj.lastFrame.t := by
          rw [hlast]
          rcases Nat.eq_or_lt_of_le (Nat.le_sub_one_of_lt hcase) with hc | hc
          · rw [show (⟨i, hcase⟩ : Fin traj.frames.length) =
              ⟨traj.frames.length - 1, by omega⟩ by simp [Fin.ext_iff, hc]]
          · exact le_of_lt (hfg i (traj.frames.length - 1) hcase (by omega) hc)
        linarith
    · intro f hf
      rw [BallTrajectory.at_time_or_last, hat, dif_pos hcase, Option.getD_some]
      exact Option.some_injective _ hf
    · intro h
      exact absurd h (by simp)
  · rw [hat, dif_neg hcase]
    have hieqlen : i = traj.frames.length := by omega
    refine ⟨by intro f hf; exact absurd hf (by simp), ?_, ?_, ?_⟩
    · constructor
      · intro _
        rw [hlast]
        exact hlo2 (traj.frames.length - 1) (by omega) (by omega)
      · intro _
        rfl
    · intro f hf
      exact absurd hf (by simp)
    · intro _
      rw [BallTrajectory.at_time_or_last, hat, dif_neg hcase]
      rfl

/-- Witness for C2 at a concrete sorted trajectory and out-of-range
time. -/
theorem at_time_spec_witness :
    exTraj.sorted ∧ exTraj.at_time 2 = none :=
  ⟨by unfold BallTrajectory.sorted; decide,
   (at_time_spec exTraj (by unfold BallTrajectory.sorted; decide) 2).2.1.mpr
     (by decide)⟩

/-- Counterexample for C3 as stated: when the delay exceeds the
trajectory span, the returned single-frame trajectory keeps the last
frame verbatim, so its first timestamp is the original last timestamp
(here 1), not 0. -/
theorem hacky_slice_counterexample :
    ¬ (exTraj.hacky_expensive_slice 2).start.t = 0 := by
  decide

/-- Heads of a dropWhile result fail the predicate. -/
theorem dropWhile_head_false {α : Type} (p : α → Bool) :
    ∀ (l : List α) (a : α) (tl : List α), l.dropWhile p = a :: tl → p a = false := by
  intro l
  induction l with
  | nil => intro a tl h; simp [List.dropWhile] at h
  | cons x xs ih =>
    intro a tl h
    rw [List.dropWhile_cons] at h
    by_cases hp : p x = true
    · rw [if_pos hp] at h
      exact ih a tl h
    · rw [if_neg hp] at h
      cases h
      simpa using hp

/-- Claim C3, amended: when some frame has t at least delay, the result
is the suffix of the original starting at the first such frame with
every timestamp shifted down by that frame's original t, so the first
timestamp is 0; when delay exceeds the span, the result is a
single-frame trajectory holding the original last frame verbatim (with
its original timestamp, which need not be 0). -/
theorem hacky_slice_amended (traj : BallTrajectory) (delay : ℚ) :
    ((∃ f ∈ traj.frames, delay ≤ f.t) →
      ∃ pre f0 suf, traj.frames = pre ++ f0 :: suf ∧
        (∀ g ∈ pre, g.t < delay) ∧ delay ≤ f0.t ∧
        (traj.hacky_expensive_slice delay).frames =
          (f0 :: suf).map (fun g => { g with t := g.t - f0.t }) ∧
        (traj.hacky_expensive_slice delay).start.t = 0)
    ∧ ((∀ f ∈ traj.frames, f.t < delay) →
      (traj.hacky_expensive_slice delay).frames = [traj.lastFrame]) := by
  constructor
  · intro hex
    rcases hdw : traj.frames.dropWhile (fun f => decide (f.t < delay)) with
      _ | ⟨f0, suf⟩
    · exfalso
      obtain ⟨f, hf, hft⟩ := hex
      have := List.dropWhile_eq_nil_iff.mp hdw f hf
      simp at this
      linarith
    · have hsplit : traj.frames.takeWhile (fun f => decide (f.t < delay)) ++
          (f0 :: suf) = traj.frames := by
        rw [← hdw]
        simp
      have hf0not : delay ≤ f0.t := by
        have := dropWhile_head_false (fun f => decide (f.t < delay))
          traj.frames f0 suf hdw
        simpa using this
      have hframes : (traj.hacky_expensive_slice delay).frames =
          (f0 :: suf).map (fun g => { g with t := g.t - f0.t }) := by
        unfold BallTrajectory.hacky_expensive_slice
        rw [hdw]
      refine ⟨traj.frames.takeWhile (fun f => decide (f.t < delay)), f0, suf,
        hsplit.symm, ?_, hf0not, hframes, ?_⟩
      · intro g hg
        have := List.mem_takeWhile_imp hg
        simpa using this
      · have h1 : (traj.hacky_expensive_slice delay).frames.head? =
            some { f0 with t := f0.t - f0.t } := by
          rw [hframes]
          rfl
        have h2 : (traj.hacky_expensive_slice delay).frames.head? =
            some ((traj.hacky_expensive_slice delay).start) := by
          rw [BallTrajectory.start]
          exact List.head?_eq_head _
        rw [h1] at h2
        have h3 := Option.some_injective _ h2
        rw [← h3]
        simp
  · intro hall
    have hdw : traj.frames.dropWhile (fun f => decide (f.t < delay)) = [] := by
      rw [List.dropWhile_eq_nil_iff]
      intro x hx
      simpa using hall x hx
    unfold BallTrajectory.hacky_expensive_slice
    rw [hdw]

/-- Witness for C3 (amended) at a concrete trajectory whose delay
exceeds the span. -/
theorem hacky_slice_amended_witness :
    (exTraj.hacky_expensive_slice 2).frames = [exTraj.lastFrame] :=
  (hacky_slice_amended exTraj 2).2 (by decide)

/-- The wavedash phase index never decreases across one execute step
(phase transitions only move forward through the declared order). -/
theorem wavedash_phase_mono (ctx : WavedashCtx) :
    ∀ (st : WavedashState), st.phase.rank ≤ (wavedashExec st ctx).2.phase.rank := by
  have main : ∀ (n : Nat) (st : WavedashState), 5 - st.phase.rank ≤ n →
      st.phase.rank ≤ (wavedashExec st ctx).2.phase.rank := by
    intro n
    induction n with
    | zero =>
      intro st h
      obtain ⟨pst0, sp0, ph, thr⟩ := st
      cases ph <;> simp [WPhase.rank] at h ⊢
      rw [wavedashExec]
    | succ n ih =>
      intro st h
      obtain ⟨pst0, sp0, ph, thr⟩ := st
      simp only [WavedashState.phase] at h ⊢
      cases ph
      case Finished =>
        rw [wavedashExec]
      case Jump =>
        rw [wavedashExec]
        simp only [WPhase.rank] at h ⊢
        split_ifs with h1 h2
        · exact le_trans (Nat.zero_le _)
            (ih _ (by simp [WavedashState.phase, WPhase.rank]; omega))
        · simp [WPhase.rank]
        · simp [WPhase.rank]
      case Adjust =>
        rw [wavedashExec]
        simp only [WPhase.rank] at h ⊢
        split_ifs with h1 h2
        · refine le_trans ?_ (ih _ (by simp [WavedashState.phase, WPhase.rank]; omega))
          simp [WavedashState.phase, WPhase.rank]
        · simp [WPhase.rank]
        · simp [WPhase.rank]
      case Wait =>
        rw [wavedashExec]
        simp only [WPhase.rank] at h ⊢
        split_ifs with h1 h2 h3
        · refine le_trans ?_ (ih _ (by simp [WavedashState.phase, WPhase.rank]; omega))
          simp [WavedashState.phase, WPhase.rank]
        · simp [WPhase.rank]
        · simp [WPhase.rank]
        · simp [WPhase.rank]
      case Dodge =>
        rw [wavedashExec]
        simp only [WPhase.rank] at h ⊢
        split_ifs with h1 h2
        · refine le_trans ?_ (ih _ (by simp [WavedashState.phase, WPhase.rank]; omega))
          simp [WavedashState.phase, WPhase.rank]
        · simp [WPhase.rank]
        · simp [WPhase.rank]
      case FollowThrough =>
        rw [wavedashExec]
        simp only [WPhase.rank] at h ⊢
        split_ifs with h1
        · refine le_trans ?_ (ih _ (by simp [WavedashState.phase, WPhase.rank]))
          simp [WavedashState.phase, WPhase.rank]
        · simp [WPhase.rank]
  intro st
  exact main 5 st (Nat.sub_le 5 _)

/-- Claim C7: Wavedash::execute_old advances its phase only forward
through Jump, Adjust, Wait, Dodge, FollowThrough, Finished, with
exactly the guards of the source: Jump moves on after the fixed jump
input hold (aborting first if wheel contact is lost), Adjust moves on
once the accumulated pitch change crosses the small threshold
(aborting after double the expected adjustment time), Wait moves on
once the car is low and descending (aborting when waiting 25% past the
expected time or when the double jump is consumed), Dodge moves on
after the fixed input hold (aborting on ground contact mid-air),
FollowThrough finishes after the fixed follow-through time without
resetting the phase timer, and Finished always returns.  The state is
taken with its phase-entry time ps and starting pitch sp recorded. -/
theorem wavedash_guards (ctx : WavedashCtx) (ps sp thr : ℚ) :
    (∀ st : WavedashState, st.phase.rank ≤ (wavedashExec st ctx).2.phase.rank)
    ∧ (JUMP_INPUT_TIME ≤ ctx.time - ps →
        wavedashExec ⟨some ps, some sp, WPhase.Jump, thr⟩ ctx =
          wavedashExec ⟨some ctx.time, some sp, WPhase.Adjust, thr⟩ ctx)
    ∧ (ctx.time - ps < JUMP_INPUT_TIME → ctx.onGround = false →
        wavedashExec ⟨some ps, some sp, WPhase.Jump, thr⟩ ctx =
          (WAction.Abort, ⟨some ps, some sp, WPhase.Jump, thr⟩))
    ∧ (ctx.time - ps < JUMP_INPUT_TIME → ctx.onGround = true →
        wavedashExec ⟨some ps, some sp, WPhase.Jump, thr⟩ ctx =
          (WAction.Yield { Throttle := thr, Pitch := 1, Jump := true, Handbrake := false },
            ⟨some ps, some sp, WPhase.Jump, thr⟩))
    ∧ (PI32 / 360 ≤ ctx.pitch - sp →
        wavedashExec ⟨some ps, some sp, WPhase.Adjust, thr⟩ ctx =
          wavedashExec ⟨some ctx.time, some sp, WPhase.Wait, thr⟩ ctx)
    ∧ (ctx.pitch - sp < PI32 / 360 → PITCH_ADJUSTMENT_TIME * 2 < ctx.time - ps →
        wavedashExec ⟨some ps, some sp, WPhase.Adjust, thr⟩ ctx =
          (WAction.Abort, ⟨some ps, some sp, WPhase.Adjust, thr⟩))
    ∧ (ctx.pitch - sp < PI32 / 360 → ctx.time - ps ≤ PITCH_ADJUSTMENT_TIME * 2 →
        wavedashExec ⟨some ps, some sp, WPhase.Adjust, thr⟩ ctx =
          (WAction.Yield { Throttle := thr, Pitch := 1, Jump := false, Handbrake := false },
            ⟨some ps, some sp, WPhase.Adjust, thr⟩))
    ∧ (ctx.locZ ≤ 39 → ctx.velZ < 0 →
        wavedashExec ⟨some ps, some sp, WPhase.Wait, thr⟩ ctx =
          wavedashExec ⟨some ctx.time, some sp, WPhase.Dodge, thr⟩ ctx)
    ∧ (¬(ctx.locZ ≤ 39 ∧ ctx.velZ < 0) → DODGE_WAIT_TIME * (5 / 4) < ctx.time - ps →
        wavedashExec ⟨some ps, some sp, WPhase.Wait, thr⟩ ctx =
          (WAction.Abort, ⟨some ps, some sp, WPhase.Wait, thr⟩))
    ∧ (¬(ctx.locZ ≤ 39 ∧ ctx.velZ < 0) → ctx.time - ps ≤ DODGE_WAIT_TIME * (5 / 4) →
        ctx.doubleJumped = true →
        wavedashExec ⟨some ps, some sp, WPhase.Wait, thr⟩ ctx =
          (WAction.Abort, ⟨some ps, some sp, WPhase.Wait, thr⟩))
    ∧ (¬(ctx.locZ ≤ 39 ∧ ctx.velZ < 0) → ctx.time - ps ≤ DODGE_WAIT_TIME * (5 / 4) →
        ctx.doubleJumped = false →
        wavedashExec ⟨some ps, some sp, WPhase.Wait, thr⟩ ctx =
          (WAction.Yield { Throttle := thr, Pitch := 0, Jump := false, Handbrake := false },
            ⟨some ps, some sp, WPhase.Wait, thr⟩))
    ∧ (JUMP_INPUT_TIME ≤ ctx.time - ps →
        wavedashExec ⟨some ps, some sp, WPhase.Dodge, thr⟩ ctx =
          wavedashExec ⟨some ctx.time, some sp, WPhase.FollowThrough, thr⟩ ctx)
    ∧ (ctx.time - ps < JUMP_INPUT_TIME → ctx.onGround = true →
        wavedashExec ⟨some ps, some sp, WPhase.Dodge, thr⟩ ctx =
          (WAction.Abort, ⟨some ps, some sp, WPhase.Dodge, thr⟩))
    ∧ (ctx.time - ps < JUMP_INPUT_TIME → ctx.onGround = false →
        wavedashExec ⟨some ps, some sp, WPhase.Dodge, thr⟩ ctx =
          (WAction.Yield { Throttle := thr, Pitch := -1, Jump := true, Handbrake := true },
            ⟨some ps, some sp, WPhase.Dodge, thr⟩))
    ∧ (FOLLOW_THROUGH_TIME ≤ ctx.time - ps →
        wavedashExec ⟨some ps, some sp, WPhase.FollowThrough, thr⟩ ctx =
          wavedashExec ⟨some ps, some sp, WPhase.Finished, thr⟩ ctx)
    ∧ (ctx.time - ps < FOLLOW_THROUGH_TIME →
        wavedashExec ⟨some ps, some sp, WPhase.FollowThrough, thr⟩ ctx =
          (WAction.Yield { Throttle := 0, Pitch := 0, Jump := false, Handbrake := true },
            ⟨some ps, some sp, WPhase.FollowThrough, thr⟩))
    ∧ (wavedashExec ⟨some ps, some sp, WPhase.Finished, thr⟩ ctx =
        (WAction.Return, ⟨some ps, some sp, WPhase.Finished, thr⟩)) := by
  refine ⟨wavedash_phase_mono ctx, ?_, ?_, ?_, ?_, ?_, ?_, ?_, ?_, ?_, ?_, ?_,
    ?_, ?_, ?_, ?_, ?_⟩
  · intro h1
    conv_lhs => rw [wavedashExec]
    simp [h1, PlayerInput.default0]
  · intro h1 h2
    conv_lhs => rw [wavedashExec]
    simp [not_le.mpr h1, h2, PlayerInput.default0]
  · intro h1 h2
    conv_lhs => rw [wavedashExec]
    simp [not_le.mpr h1, h2, PlayerInput.default0]
  · intro h1
    conv_lhs => rw [wavedashExec]
    simp [h1, PlayerInput.default0]
  · intro h1 h2
    conv_lhs => rw [wavedashExec]
    simp [not_le.mpr h1, h2, PlayerInput.default0]
  · intro h1 h2
    conv_lhs => rw [wavedashExec]
    simp [not_le.mpr h1, not_lt.mpr h2, PlayerInput.default0]
  · intro h1 h2
    conv_lhs => rw [wavedashExec]
    simp [h1, h2, PlayerInput.default0]
  · intro h1 h2
    conv_lhs => rw [wavedashExec]
    simp [h1, h2, PlayerInput.default0]
  · intro h1 h2 h3
    conv_lhs => rw [wavedashExec]
    simp [h1, not_lt.mpr h2, h3, PlayerInput.default0]
  · intro h1 h2 h3
    conv_lhs => rw [wavedashExec]
    simp [h1, not_lt.mpr h2, h3, PlayerInput.default0]
  · intro h1
    conv_lhs => rw [wavedashExec]
    simp [h1, PlayerInput.default0]
  · intro h1 h2
    conv_lhs => rw [wavedashExec]
    simp [not_le.mpr h1, h2, PlayerInput.default0]
  · intro h1 h2
    conv_lhs => rw [wavedashExec]
    simp [not_le.mpr h1, h2, PlayerInput.default0]
  · intro h1
    conv_lhs => rw [wavedashExec]
    simp [h1, PlayerInput.default0]
  · intro h1
    conv_lhs => rw [wavedashExec]
    simp [not_le.mpr h1, PlayerInput.default0]
  · conv_lhs => rw [wavedashExec]
    rfl

/-- Witness for C7: a concrete Jump-phase state past the input hold
time transitions to Adjust with the timer reset. -/
theorem wavedash_guards_witness :
    wavedashExec ⟨some 0, some 0, WPhase.Jump, 1⟩ ⟨1, 0, 17, 0, true, false⟩ =
      wavedashExec ⟨some 1, some 0, WPhase.Adjust, 1⟩ ⟨1, 0, 17, 0, true, false⟩ :=
  (wavedash_guards ⟨1, 0, 17, 0, true, false⟩ 0 0 1).2.1
    (by norm_num [JUMP_INPUT_TIME, PHYSICS_TICK_FREQ])

/-- Claim C8: SameBallTrajectory::execute_old never aborts without a
recorded snapshot (it records one and yields nothing); with a snapshot,
it aborts exactly when the 2-D distance between the snapshot location
and the current prediction at the same predicted game-time instant
reaches ERROR_THRESHOLD, and otherwise records a fresh snapshot and
yields nothing. -/
theorem same_ball_trajectory_spec (st : SBTState) (ctx : SBTCtx) :
    (st.prediction = none →
      SBTexecute_old st ctx =
        (none, { prediction := some (SBTupdate_snapshot ctx) }))
    ∧ (∀ p f, st.prediction = some p →
        ctx.traj.at_time (p.t - ctx.time) = some f →
        ((SBTexecute_old st ctx).1 = some SBTAction.Abort ↔
          ERROR_THRESHOLD ^ 2 ≤ (p.loc.sub f.loc).sqNorm2d))
    ∧ (∀ p f, st.prediction = some p →
        ctx.traj.at_time (p.t - ctx.time) = some f →
        (p.loc.sub f.loc).sqNorm2d < ERROR_THRESHOLD ^ 2 →
        SBTexecute_old st ctx =
          (none, { prediction := some (SBTupdate_snapshot ctx) })) := by
  refine ⟨?_, ?_, ?_⟩
  · intro hp
    simp [SBTexecute_old, SBTeval_vel_changed, hp]
  · intro p f hp hat
    by_cases hc : ERROR_THRESHOLD ^ 2 ≤ (p.loc.sub f.loc).sqNorm2d
    · simp [SBTexecute_old, SBTeval_vel_changed, hp, hat, hc]
    · simp [SBTexecute_old, SBTeval_vel_changed, hp, hat, hc]
  · intro p f hp hat hlt
    simp [SBTexecute_old, SBTeval_vel_changed, hp, hat, not_le.mpr hlt]

/-- Witness for C8: a matching snapshot within range does not abort
and a fresh snapshot is recorded. -/
theorem same_ball_trajectory_spec_witness :
    SBTexecute_old ⟨some ⟨1, ⟨100, 0, 0⟩⟩⟩ ⟨0, exTraj⟩ =
      (none, ⟨some (SBTupdate_snapshot ⟨0, exTraj⟩)⟩) :=
  (same_ball_trajectory_spec ⟨some ⟨1, ⟨100, 0, 0⟩⟩⟩ ⟨0, exTraj⟩).2.2
    ⟨1, ⟨100, 0, 0⟩⟩ (mkFrame 1 100) rfl
    (by norm_num [BallTrajectory.at_time, bsearchLoop, exTraj, mkFrame])
    (by norm_num [Vec3.sub, Vec3.sqNorm2d, ERROR_THRESHOLD, mkFrame])

/-- Claim C10: for a circle of radius r > 0, circle_point_tangents
returns None when the point is strictly inside the circle, and for a
point strictly outside it returns the two distinct tangent points:
each lies on the circle and each makes the line from the query point
touch the circle at a right angle to the radius. -/
theorem circle_point_tangents_spec (a b r xp yp : ℝ) (hr : 0 < r) :
    (planarDist xp yp a b < r → circle_point_tangents a b r xp yp = none)
    ∧ (r < planarDist xp yp a b →
        ∃ p1 p2 : ℝ × ℝ, circle_point_tangents a b r xp yp = some (p1, p2) ∧
          (p1.1 - a) ^ 2 + (p1.2 - b) ^ 2 = r ^ 2 ∧
          (p2.1 - a) ^ 2 + (p2.2 - b) ^ 2 = r ^ 2 ∧
          (p1.1 - a) * (p1.1 - xp) + (p1.2 - b) * (p1.2 - yp) = 0 ∧
          (p2.1 - a) * (p2.1 - xp) + (p2.2 - b) * (p2.2 - yp) = 0 ∧
          p1 ≠ p2) := by
  constructor
  · intro hin
    have hd : (xp - a) ^ 2 + (yp - b) ^ 2 < r ^ 2 := by
      have := (Real.sqrt_lt' hr).mp hin
      simpa [planarDist] using this
    rw [circle_point_tangents]
    rw [if_pos]
    left
    linarith
  · intro hout
    have hd : r ^ 2 < (xp - a) ^ 2 + (yp - b) ^ 2 := by
      have := (Real.lt_sqrt (by positivity)).mp hout
      simpa [planarDist] using this
    have hD0 : (0:ℝ) < (xp - a) ^ 2 + (yp - b) ^ 2 := by nlinarith
    have hDne : ((xp - a) ^ 2 + (yp - b) ^ 2 : ℝ) ≠ 0 := ne_of_gt hD0
    have hdisc : (0:ℝ) < (xp - a) ^ 2 + (yp - b) ^ 2 - r ^ 2 := by linarith
    have hs2 : Real.sqrt ((xp - a) ^ 2 + (yp - b) ^ 2 - r ^ 2) ^ 2 =
        (xp - a) ^ 2 + (yp - b) ^ 2 - r ^ 2 := Real.sq_sqrt (le_of_lt hdisc)
    have hspos : 0 < Real.sqrt ((xp - a) ^ 2 + (yp - b) ^ 2 - r ^ 2) :=
      Real.sqrt_pos.mpr hdisc
    rw [circle_point_tangents]
    rw [if_neg]
    · refine ⟨_, _, rfl, ?_, ?_, ?_, ?_, ?_⟩
      · field_simp
        linear_combination (r ^ 2 * ((xp - a) ^ 2 + (yp - b) ^ 2)) * hs2
      · field_simp
        linear_combination (r ^ 2 * ((xp - a) ^ 2 + (yp - b) ^ 2)) * hs2
      · field_simp
        linear_combination (r ^ 2 * ((xp - a) ^ 2 + (yp - b) ^ 2)) * hs2
      · field_simp
        linear_combination (r ^ 2 * ((xp - a) ^ 2 + (yp - b) ^ 2)) * hs2
      · intro heq
        have hx := congrArg Prod.fst heq
        have hy := congrArg Prod.snd heq
        simp only [] at hx hy
        have hvx : r * (yp - b) * Real.sqrt ((xp - a) ^ 2 + (yp - b) ^ 2 - r ^ 2) = 0 := by
          field_simp at hx
          linarith
        have hvy : r * (xp - a) * Real.sqrt ((xp - a) ^ 2 + (yp - b) ^ 2 - r ^ 2) = 0 := by
          field_simp at hy
          linarith
        have hv0 : yp - b = 0 := by
          rcases mul_eq_zero.mp hvx with h | h
          · rcases mul_eq_zero.mp h with h2 | h2
            · exact absurd h2 (ne_of_gt hr)
            · exact h2
          · exact absurd h (ne_of_gt hspos)
        have hu0 : xp - a = 0 := by
          rcases mul_eq_zero.mp hvy with h | h
          · rcases mul_eq_zero.mp h with h2 | h2
            · exact absurd h2 (ne_of_gt hr)
            · exact h2
          · exact absurd h (ne_of_gt hspos)
        rw [hu0, hv0] at hD0
        simp at hD0
    · push_neg
      constructor
      · linarith
      · exact hDne

/-- Witness for C10: a point inside the radius-3 circle at the origin
gets no tangent points. -/
theorem circle_point_tangents_spec_witness :
    circle_point_tangents 0 0 3 1 0 = none :=
  (circle_point_tangents_spec 0 0 3 1 0 (by norm_num)).1
    (by
      have h1 : ((1:ℝ) - 0) ^ 2 + ((0:ℝ) - 0) ^ 2 = 1 := by norm_num
      rw [planarDist, h1, Real.sqrt_one]
      norm_num)

/-! ## Car1D arithmetic lemmas for the dodge-insertion monotonicity -/

theorem step_time (c : Car1D) (dt throttle : ℚ) (b : Bool) :
    (c.step dt throttle b).time = c.time + dt := rfl

theorem step_dist (c : Car1D) (dt throttle : ℚ) (b : Bool) :
    (c.step dt throttle b).dist = c.dist + c.speed * dt := rfl

theorem step_speed_nonneg (c : Car1D) (dt throttle : ℚ) (b : Bool) :
    0 ≤ (c.step dt throttle b).speed :=
  le_max_left 0 _

theorem step_speed_le (c : Car1D) (dt throttle : ℚ) (b : Bool) :
    (c.step dt throttle b).speed ≤ MAX_SPEED := by
  have hM : (0:ℚ) ≤ MAX_SPEED := by norm_num [MAX_SPEED]
  exact max_le hM (min_le_right _ _)

theorem stepN_zero (c : Car1D) (dt throttle : ℚ) (b : Bool) :
    c.stepN 0 dt throttle b = c := rfl

theorem stepN_succ (c : Car1D) (n : Nat) (dt throttle : ℚ) (b : Bool) :
    c.stepN (n + 1) dt throttle b = (c.step dt throttle b).stepN n dt throttle b := rfl

theorem stepN_add (c : Car1D) (m n : Nat) (dt throttle : ℚ) (b : Bool) :
    c.stepN (m + n) dt throttle b = (c.stepN m dt throttle b).stepN n dt throttle b := by
  induction m generalizing c with
  | zero => simp [stepN_zero]
  | succ m ih =>
    have : m + 1 + n = (m + n) + 1 := by omega
    rw [this, stepN_succ, stepN_succ, ih]

theorem stepN_succ_back (c : Car1D) (n : Nat) (dt throttle : ℚ) (b : Bool) :
    c.stepN (n + 1) dt throttle b = (c.stepN n dt throttle b).step dt throttle b :=
  stepN_add c n 1 dt throttle b

theorem stepN_time (c : Car1D) (n : Nat) (dt throttle : ℚ) (b : Bool) :
    (c.stepN n dt throttle b).time = c.time + n * dt := by
  induction n generalizing c with
  | zero => simp [stepN_zero]
  | succ n ih =>
    rw [stepN_succ, ih, step_time]
    push_cast
    ring

theorem stepN_speed_nonneg (c : Car1D) (n : Nat) (dt throttle : ℚ) (b : Bool)
    (h0 : 0 ≤ c.speed) : 0 ≤ (c.stepN n dt throttle b).speed := by
  induction n generalizing c with
  | zero => exact h0
  | succ n ih =>
    rw [stepN_succ]
    exact ih _ (step_speed_nonneg c dt throttle b)

theorem stepN_speed_le (c : Car1D) (n : Nat) (dt throttle : ℚ) (b : Bool)
    (hm : c.speed ≤ MAX_SPEED) : (c.stepN n dt throttle b).speed ≤ MAX_SPEED := by
  induction n generalizing c with
  | zero => exact hm
  | succ n ih =>
    rw [stepN_succ]
    exact ih _ (step_speed_le c dt throttle b)

theorem stepN_dist_mono (c : Car1D) (n k : Nat) (dt throttle : ℚ) (b : Bool)
    (hdt : 0 ≤ dt) (h0 : 0 ≤ c.speed) :
    (c.stepN n dt throttle b).dist ≤ (c.stepN (n + k) dt throttle b).dist := by
  induction k with
  | zero => exact le_refl _
  | succ k ih =>
    have : n + (k + 1) = (n + k) + 1 := by omega
    rw [this, stepN_succ_back, step_dist]
    have hsp : 0 ≤ (c.stepN (n + k) dt throttle b).speed :=
      stepN_speed_nonneg c _ dt throttle b h0
    nlinarith

theorem blitz_step_speed_lb (c : Car1D) (h0 : 0 ≤ c.speed) :
    SMIN ≤ (c.step PHYSICS_DT 1 true).speed := by
  refine le_trans (le_min ?_ ?_) (le_max_right _ _)
  · show SMIN ≤ c.speed + _ * PHYSICS_DT
    have hcond : (decide ((1:ℚ) = 0) && !(true && decide (0 < c.boost))) = false := by
      norm_num
    rw [hcond]
    simp only [Bool.false_eq_true, if_false]
    split_ifs with hb <;>
      norm_num [SMIN, THROTTLE_ACCEL, BOOST_ACCEL, PHYSICS_DT, MAX_SPEED] <;>
      linarith
  · norm_num [SMIN, THROTTLE_ACCEL, PHYSICS_DT, MAX_SPEED]

theorem blitz_step_speed_mono (c : Car1D) (_h0 : 0 ≤ c.speed)
    (hm : c.speed ≤ MAX_SPEED) : c.speed ≤ (c.step PHYSICS_DT 1 true).speed := by
  refine le_trans (le_min ?_ hm) (le_max_right _ _)
  show c.speed ≤ c.speed + _ * PHYSICS_DT
  have hcond : (decide ((1:ℚ) = 0) && !(true && decide (0 < c.boost))) = false := by
    norm_num
  rw [hcond]
  simp only [Bool.false_eq_true, if_false]
  split_ifs with hb <;>
    norm_num [THROTTLE_ACCEL, BOOST_ACCEL, PHYSICS_DT]

theorem blitz_stepN_speed_ge (c : Car1D) (n : Nat) (h0 : 0 ≤ c.speed)
    (hm : c.speed ≤ MAX_SPEED) :
    c.speed ≤ (c.stepN n PHYSICS_DT 1 true).speed := by
  induction n generalizing c with
  | zero => exact le_refl _
  | succ n ih =>
    rw [stepN_succ]
    exact le_trans (blitz_step_speed_mono c h0 hm)
      (ih _ (step_speed_nonneg c PHYSICS_DT 1 true) (step_speed_le c PHYSICS_DT 1 true))

theorem blitz_stepN_dist_ge (c : Car1D) (n : Nat) (h0 : 0 ≤ c.speed)
    (hm : c.speed ≤ MAX_SPEED) :
    c.dist + n * (c.speed * PHYSICS_DT) ≤ (c.stepN n PHYSICS_DT 1 true).dist := by
  induction n generalizing c with
  | zero => simp [stepN_zero]
  | succ n ih =>
    rw [stepN_succ]
    have h1 := ih (c.step PHYSICS_DT 1 true) (step_speed_nonneg c PHYSICS_DT 1 true)
      (step_speed_le c PHYSICS_DT 1 true)
    have h2 : c.speed ≤ (c.step PHYSICS_DT 1 true).speed := blitz_step_speed_mono c h0 hm
    have h3 : (c.step PHYSICS_DT 1 true).dist = c.dist + c.speed * PHYSICS_DT :=
      step_dist c PHYSICS_DT 1 true
    have hdt : (0:ℚ) < PHYSICS_DT := by norm_num [PHYSICS_DT]
    have hn : (0:ℚ) ≤ (n : ℚ) := Nat.cast_nonneg n
    have h4 : (n : ℚ) * (c.speed * PHYSICS_DT) ≤
        (n : ℚ) * ((c.step PHYSICS_DT 1 true).speed * PHYSICS_DT) := by
      refine mul_le_mul_of_nonneg_left ?_ hn
      nlinarith
    push_cast
    push_cast at h1
    nlinarith [h1, h3, h4]

theorem coast_step_speed_le (c : Car1D) (h0 : 0 ≤ c.speed) :
    (c.step PHYSICS_DT 0 false).speed ≤ c.speed := by
  refine max_le h0 (le_trans (min_le_left _ _) ?_)
  show c.speed + _ * PHYSICS_DT ≤ c.speed
  have hcond : (decide ((0:ℚ) = 0) && !(false && decide (0 < c.boost))) = true := by
    norm_num
  rw [hcond]
  simp only [if_true]
  norm_num [COAST_DECEL, PHYSICS_DT]

theorem coast_stepN_speed_le (c : Car1D) (n : Nat) (h0 : 0 ≤ c.speed) :
    (c.stepN n PHYSICS_DT 0 false).speed ≤ c.speed := by
  induction n generalizing c with
  | zero => exact le_refl _
  | succ n ih =>
    rw [stepN_succ]
    exact le_trans (ih _ (step_speed_nonneg c PHYSICS_DT 0 false))
      (coast_step_speed_le c h0)

theorem coast_stepN_dist_window (c : Car1D) (m k : Nat) (h0 : 0 ≤ c.speed) :
    (c.stepN (m + k) PHYSICS_DT 0 false).dist ≤
      (c.stepN m PHYSICS_DT 0 false).dist + k * (c.speed * PHYSICS_DT) := by
  induction k with
  | zero => simp [stepN_zero]
  | succ k ih =>
    have hn : m + (k + 1) = (m + k) + 1 := by omega
    rw [hn, stepN_succ_back, step_dist]
    have hsp : (c.stepN (m + k) PHYSICS_DT 0 false).speed ≤ c.speed :=
      coast_stepN_speed_le c _ h0
    have hdt : (0:ℚ) < PHYSICS_DT := by norm_num [PHYSICS_DT]
    have hsp2 : (c.stepN (m + k) PHYSICS_DT 0 false).speed * PHYSICS_DT ≤
        c.speed * PHYSICS_DT := by nlinarith
    push_cast
    push_cast at ih
    nlinarith [ih, hsp2]

theorem smin_dt_pos : (0:ℚ) < SMIN * PHYSICS_DT := by
  norm_num [SMIN, THROTTLE_ACCEL, PHYSICS_DT, MAX_SPEED]

theorem blitz_fuel_adequate (c : Car1D) (target : ℚ) (h0 : 0 ≤ c.speed) :
    target ≤ (c.stepN (blitzFuel c target) PHYSICS_DT 1 true).dist := by
  have hs1 : SMIN ≤ (c.step PHYSICS_DT 1 true).speed := blitz_step_speed_lb c h0
  have hs1n : 0 ≤ (c.step PHYSICS_DT 1 true).speed := step_speed_nonneg c _ _ _
  have hs1m : (c.step PHYSICS_DT 1 true).speed ≤ MAX_SPEED := step_speed_le c _ _ _
  have hd1 : (c.step PHYSICS_DT 1 true).dist = c.dist + c.speed * PHYSICS_DT :=
    step_dist c _ _ _
  have hdt : (0:ℚ) < PHYSICS_DT := by norm_num [PHYSICS_DT]
  have hsd := smin_dt_pos
  have hfuel : blitzFuel c target =
      (1 + Int.toNat ⌈(target - c.dist) / (SMIN * PHYSICS_DT)⌉) + 1 := by
    rw [blitzFuel]
    omega
  rw [hfuel, stepN_succ]
  have hge := blitz_stepN_dist_ge (c.step PHYSICS_DT 1 true)
    (1 + Int.toNat ⌈(target - c.dist) / (SMIN * PHYSICS_DT)⌉) hs1n hs1m
  have hsp : (1 + (Int.toNat ⌈(target - c.dist) / (SMIN * PHYSICS_DT)⌉) : ℚ) *
      ((c.step PHYSICS_DT 1 true).speed * PHYSICS_DT) ≥
      (1 + (Int.toNat ⌈(target - c.dist) / (SMIN * PHYSICS_DT)⌉) : ℚ) *
      (SMIN * PHYSICS_DT) := by
    refine mul_le_mul_of_nonneg_left ?_ (by positivity)
    nlinarith
  rcases le_or_lt target c.dist with hcase | hcase
  · push_cast at hge
    nlinarith [hge, hsp]
  · have hq : (0:ℚ) < (target - c.dist) / (SMIN * PHYSICS_DT) := by
      apply div_pos <;> linarith
    have hceil : (target - c.dist) / (SMIN * PHYSICS_DT) ≤
        ((Int.toNat ⌈(target - c.dist) / (SMIN * PHYSICS_DT)⌉ : ℤ) : ℚ) := by
      refine le_trans (Int.le_ceil _) ?_
      exact_mod_cast Int.self_le_toNat _
    have hM : target - c.dist ≤
        ((Int.toNat ⌈(target - c.dist) / (SMIN * PHYSICS_DT)⌉ : ℤ) : ℚ) *
          (SMIN * PHYSICS_DT) := by
      rw [div_le_iff hsd] at hceil
      exact hceil
    push_cast at hge hM
    nlinarith [hge, hsp, hM]

theorem blitzLoopAux_spec (target : ℚ) : ∀ (fuel : Nat) (c : Car1D),
    target ≤ (c.stepN fuel PHYSICS_DT 1 true).dist →
    target ≤ (c.stepN (blitzLoopAux target fuel c) PHYSICS_DT 1 true).dist ∧
      ∀ j, j < blitzLoopAux target fuel c →
        (c.stepN j PHYSICS_DT 1 true).dist < target := by
  intro fuel
  induction fuel with
  | zero =>
    intro c h
    refine ⟨h, ?_⟩
    intro j hj
    rw [blitzLoopAux] at hj
    omega
  | succ fuel ih =>
    intro c h
    rw [blitzLoopAux]
    split_ifs with hc
    · exact ⟨by simpa [stepN_zero] using hc, by omega⟩
    · have h' : target ≤ ((c.step PHYSICS_DT 1 true).stepN fuel PHYSICS_DT 1 true).dist := by
        rw [← stepN_succ]
        exact h
      obtain ⟨ha, hb⟩ := ih (c.step PHYSICS_DT 1 true) h'
      refine ⟨by rw [stepN_succ]; exact ha, ?_⟩
      intro j hj
      cases j with
      | zero =>
        simpa [stepN_zero] using not_le.mp hc
      | succ j =>
        rw [stepN_succ]
        exact hb j (by omega)

theorem blitzSteps_reaches (c : Car1D) (target : ℚ) (h0 : 0 ≤ c.speed) :
    target ≤ (c.stepN (blitzSteps c target) PHYSICS_DT 1 true).dist :=
  (blitzLoopAux_spec target (blitzFuel c target) c (blitz_fuel_adequate c target h0)).1

theorem blitzSteps_min (c : Car1D) (target : ℚ) (h0 : 0 ≤ c.speed) (n : Nat)
    (hn : target ≤ (c.stepN n PHYSICS_DT 1 true).dist) :
    blitzSteps c target ≤ n := by
  by_contra hlt
  push_neg at hlt
  exact absurd hn (not_le.mpr
    ((blitzLoopAux_spec target (blitzFuel c target) c
      (blitz_fuel_adequate c target h0)).2 n hlt))

/-- With no target time, evaluating the same approach step with more
reserved dead time either fails (never newly succeeds) or succeeds
with a score at least as large: the longer coast covers distance more
slowly than the blitz that replaces it in the score. -/
theorem evaluate_chop_mono (ss sb td chop1 chop2 : ℚ) (ap : Car1D)
    (hap : 0 ≤ ap.speed) (hcc : chop1 ≤ chop2) (d2 : StraightDodge)
    (h2 : (StraightDodgeCalculator.mk ss sb td none chop2).evaluate ap = some d2) :
    ∃ d1, (StraightDodgeCalculator.mk ss sb td none chop1).evaluate ap = some d1 ∧
      d1.score ≤ d2.score := by
  have hdt : (0:ℚ) < PHYSICS_DT := by norm_num [PHYSICS_DT]
  simp only [StraightDodgeCalculator.evaluate, Car1D.multi_step] at h2 ⊢
  simp only [Bool.true_eq_false, if_false] at h2 ⊢
  set s0 := (CarForwardDodge.calc_1d ap.speed).end_speed with hs0
  set ed := (CarForwardDodge.calc_1d ap.speed).end_dist with hed
  set cs : Car1D := (Car1D.mk0 s0).with_boost ap.boost with hcs
  have hcs_speed : cs.speed = s0 := rfl
  have hcs_time : cs.time = 0 := rfl
  have hs00 : 0 ≤ s0 := by
    rw [hs0]
    have : (0:ℚ) ≤ ap.speed + 500 := by linarith
    exact le_min this (by norm_num)
  have hs0m : s0 ≤ MAX_SPEED := by
    rw [hs0]
    exact le_trans (min_le_right _ _) (by norm_num [MAX_SPEED])
  have hcs0 : 0 ≤ cs.speed := by rw [hcs_speed]; exact hs00
  have hcsm : cs.speed ≤ MAX_SPEED := by rw [hcs_speed]; exact hs0m
  set m1 := Int.toNat ⌈chop1 / PHYSICS_DT⌉ with hm1
  set m2 := Int.toNat ⌈chop2 / PHYSICS_DT⌉ with hm2
  have hmle : m1 ≤ m2 := by
    rw [hm1, hm2]
    exact Int.toNat_le_toNat (Int.ceil_le_ceil ((div_le_div_right hdt).mpr hcc))
  have hm2split : m1 + (m2 - m1) = m2 := by omega
  set cd1 := (cs.stepN m1 PHYSICS_DT 0 false).dist with hcd1
  set cd2 := (cs.stepN m2 PHYSICS_DT 0 false).dist with hcd2
  have hcd12 : cd1 ≤ cd2 := by
    have h := stepN_dist_mono cs m1 (m2 - m1) PHYSICS_DT 0 false (le_of_lt hdt) hcs0
    rw [hm2split] at h
    exact h
  have hcdw : cd2 ≤ cd1 + ((m2 - m1 : ℕ) : ℚ) * (s0 * PHYSICS_DT) := by
    have h := coast_stepN_dist_window cs m1 (m2 - m1) hcs0
    rw [hm2split, hcs_speed] at h
    exact h
  by_cases hcond2 : td ≤ ap.dist + ed + cd2
  · rw [if_pos hcond2] at h2
    exact absurd h2 (by simp)
  · rw [if_neg hcond2] at h2
    have hcond1 : ¬ td ≤ ap.dist + ed + cd1 := by
      intro hx
      exact hcond2 (le_trans hx (by linarith))
    rw [if_neg hcond1]
    set n2 := blitzSteps cs (td - (ap.dist + ed + cd2)) with hn2
    set n1 := blitzSteps cs (td - (ap.dist + ed + cd1)) with hn1
    have hreach2 : td - (ap.dist + ed + cd2) ≤ (cs.stepN n2 PHYSICS_DT 1 true).dist :=
      blitzSteps_reaches cs _ hcs0
    have hgrow : (cs.stepN n2 PHYSICS_DT 1 true).dist +
        ((m2 - m1 : ℕ) : ℚ) * (s0 * PHYSICS_DT) ≤
        (cs.stepN (n2 + (m2 - m1)) PHYSICS_DT 1 true).dist := by
      rw [stepN_add]
      have hsp := blitz_stepN_speed_ge cs n2 hcs0 hcsm
      have hge := blitz_stepN_dist_ge (cs.stepN n2 PHYSICS_DT 1 true) (m2 - m1)
        (stepN_speed_nonneg cs n2 PHYSICS_DT 1 true hcs0)
        (stepN_speed_le cs n2 PHYSICS_DT 1 true hcsm)
      have hk : (0:ℚ) ≤ ((m2 - m1 : ℕ) : ℚ) := Nat.cast_nonneg _
      have hmul : ((m2 - m1 : ℕ) : ℚ) * (s0 * PHYSICS_DT) ≤
          ((m2 - m1 : ℕ) : ℚ) * ((cs.stepN n2 PHYSICS_DT 1 true).speed * PHYSICS_DT) := by
        refine mul_le_mul_of_nonneg_left ?_ hk
        have : s0 ≤ (cs.stepN n2 PHYSICS_DT 1 true).speed := by
          rw [← hcs_speed]
          exact hsp
        nlinarith
      linarith [hge, hmul]
    have hreach1 : td - (ap.dist + ed + cd1) ≤
        (cs.stepN (n2 + (m2 - m1)) PHYSICS_DT 1 true).dist := by
      have hsplit : td - (ap.dist + ed + cd1) =
          (td - (ap.dist + ed + cd2)) + (cd2 - cd1) := by ring
      have hcd : cd2 - cd1 ≤ ((m2 - m1 : ℕ) : ℚ) * (s0 * PHYSICS_DT) := by linarith
      linarith [hreach2, hgrow]
    have hn1le : n1 ≤ n2 + (m2 - m1) := by
      rw [hn1]
      exact blitzSteps_min cs _ hcs0 _ hreach1
    refine ⟨_, rfl, ?_⟩
    have hd2 := Option.some_injective _ h2
    rw [← hd2]
    simp only []
    have ht1 : (cs.stepN n1 PHYSICS_DT 1 true).time = (n1 : ℚ) * PHYSICS_DT := by
      rw [stepN_time, hcs_time, zero_add]
    have ht2 : (cs.stepN n2 PHYSICS_DT 1 true).time = (n2 : ℚ) * PHYSICS_DT := by
      rw [stepN_time, hcs_time, zero_add]
    have hct1 : (cs.stepN m1 PHYSICS_DT 0 false).time = (m1 : ℚ) * PHYSICS_DT := by
      rw [stepN_time, hcs_time, zero_add]
    have hct2 : (cs.stepN m2 PHYSICS_DT 0 false).time = (m2 : ℚ) * PHYSICS_DT := by
      rw [stepN_time, hcs_time, zero_add]
    rw [ht1, ht2, hct1, hct2]
    have hmn : (m1 : ℚ) + (n1 : ℚ) ≤ (m2 : ℚ) + (n2 : ℚ) := by
      have hnat : m1 + n1 ≤ m2 + n2 := by omega
      exact_mod_cast hnat
    nlinarith [hdt, hmn]

theorem foldl_min_spec {α : Type} (key : α → ℚ) :
    ∀ (xs : List α) (acc : α),
      (xs.foldl (fun acc y => if key y < key acc then y else acc) acc ∈ acc :: xs) ∧
      key (xs.foldl (fun acc y => if key y < key acc then y else acc) acc) ≤ key acc ∧
      ∀ b ∈ xs, key (xs.foldl (fun acc y => if key y < key acc then y else acc) acc) ≤ key b := by
  intro xs
  induction xs with
  | nil =>
    intro acc
    exact ⟨List.mem_cons_self _ _, le_refl _, by simp⟩
  | cons x xs ih =>
    intro acc
    rw [List.foldl_cons]
    obtain ⟨hmem, hle, hall⟩ := ih (if key x < key acc then x else acc)
    have hle2 : key (xs.foldl (fun acc y => if key y < key acc then y else acc)
        (if key x < key acc then x else acc)) ≤ key acc := by
      refine le_trans hle ?_
      split_ifs with hx
      · exact le_of_lt hx
      · exact le_refl _
    have hlex : key (xs.foldl (fun acc y => if key y < key acc then y else acc)
        (if key x < key acc then x else acc)) ≤ key x := by
      refine le_trans hle ?_
      split_ifs with hx
      · exact le_refl _
      · exact not_lt.mp hx
    refine ⟨?_, hle2, ?_⟩
    · rcases List.mem_cons.mp hmem with hc | hc
      · rw [hc]
        split_ifs with hx
        · simp
        · simp
      · simp [hc]
    · intro b hb
      rcases List.mem_cons.mp hb with hc | hc
      · rw [hc]
        exact hlex
      · exact hall b hc

theorem minByKey_mem {α : Type} (key : α → ℚ) (l : List α) (a : α)
    (h : minByKey key l = some a) : a ∈ l := by
  cases l with
  | nil => exact absurd h (by simp [minByKey])
  | cons x xs =>
    have ha := Option.some_injective _ h
    rw [← ha]
    exact (foldl_min_spec key xs x).1

theorem minByKey_le {α : Type} (key : α → ℚ) (l : List α) (a : α)
    (h : minByKey key l = some a) : ∀ b ∈ l, key a ≤ key b := by
  cases l with
  | nil => exact absurd h (by simp [minByKey])
  | cons x xs =>
    have ha := Option.some_injective _ h
    rw [← ha]
    intro b hb
    rcases List.mem_cons.mp hb with hc | hc
    · rw [hc]
      exact (foldl_min_spec key xs x).2.1
    · exact (foldl_min_spec key xs x).2.2 b hc

theorem mem_collectAux (sdc : StraightDodgeCalculator) :
    ∀ (fuel n : Nat) (d : StraightDodge), d ∈ sdc.collectAux fuel n →
      ∃ j, 1 ≤ j ∧ j ≤ fuel ∧ sdc.evaluate (sdc.approachCar (n + j)) = some d ∧
        ∀ i, 1 ≤ i → i < j →
          (sdc.evaluate (sdc.approachCar (n + i))).isSome = true := by
  intro fuel
  induction fuel with
  | zero =>
    intro n d hd
    exact absurd hd (by rw [StraightDodgeCalculator.collectAux]; simp)
  | succ fuel ih =>
    intro n d hd
    rw [StraightDodgeCalculator.collectAux] at hd
    rcases heval : sdc.evaluate (sdc.approachCar (n + 1)) with _ | d0
    · rw [heval] at hd
      exact absurd hd (by simp)
    · rw [heval] at hd
      rcases List.mem_cons.mp hd with hc | hc
      · exact ⟨1, le_refl _, by omega, by rw [hc]; exact heval, by omega⟩
      · obtain ⟨j, hj1, hjf, hje, hjp⟩ := ih (n + 1) d hc
        refine ⟨j + 1, by omega, by omega, ?_, ?_⟩
        · have : n + (j + 1) = (n + 1) + j := by omega
          rw [this]
          exact hje
        · intro i hi1 hij
          cases i with
          | zero => omega
          | succ i =>
            cases i with
            | zero =>
              rw [heval]
              rfl

            | succ i =>
              have : n + (i + 1 + 1) = (n + 1) + (i + 1) := by omega
              rw [this]
              exact hjp (i + 1) (by omega) (by omega)

theorem collectAux_mem_of (sdc : StraightDodgeCalculator) :
    ∀ (fuel n j : Nat) (d : StraightDodge), 1 ≤ j → j ≤ fuel →
      sdc.evaluate (sdc.approachCar (n + j)) = some d →
      (∀ i, 1 ≤ i → i < j →
        (sdc.evaluate (sdc.approachCar (n + i))).isSome = true) →
      d ∈ sdc.collectAux fuel n := by
  intro fuel
  induction fuel with
  | zero =>
    intro n j d hj1 hjf
    omega
  | succ fuel ih =>
    intro n j d hj1 hjf hje hjp
    rw [StraightDodgeCalculator.collectAux]
    cases j with
    | zero => omega
    | succ j =>
      cases j with
      | zero =>
        rw [hje]
        exact List.mem_cons_self _ _
      | succ j =>
        have h1 : (sdc.evaluate (sdc.approachCar (n + 1))).isSome = true :=
          hjp 1 (le_refl _) (by omega)
        rcases heval : sdc.evaluate (sdc.approachCar (n + 1)) with _ | d0
        · rw [heval] at h1
          exact absurd h1 (by simp)
        · refine List.mem_cons_of_mem _ ?_
          refine ih (n + 1) (j + 1) d (by omega) (by omega) ?_ ?_
          · have : (n + 1) + (j + 1) = n + (j + 1 + 1) := by omega
            rw [this]
            exact hje
          · intro i hi1 hij
            have : (n + 1) + i = n + (i + 1) := by omega
            rw [this]
            exact hjp (i + 1) (by omega) (by omega)

theorem approachCar_speed_nonneg (sdc : StraightDodgeCalculator)
    (hss : 0 ≤ sdc.start_speed) (n : Nat) : 0 ≤ (sdc.approachCar n).speed := by
  rw [StraightDodgeCalculator.approachCar]
  exact stepN_speed_nonneg _ _ _ _ _ hss

/-- The collect loop result does not depend on the fuel once the fuel
exceeds an index whose evaluation is rejected: the loop stops at the
first rejection either way. -/
theorem collectAux_stable (sdc : StraightDodgeCalculator) :
    ∀ (k fuel fuel2 n : Nat), k < fuel → k < fuel2 →
      sdc.evaluate (sdc.approachCar (n + k + 1)) = none →
      sdc.collectAux fuel n = sdc.collectAux fuel2 n := by
  intro k
  induction k with
  | zero =>
    intro fuel fuel2 n hk1 hk2 hnone
    cases fuel with
    | zero => omega
    | succ f =>
      cases fuel2 with
      | zero => omega
      | succ f2 =>
        rw [StraightDodgeCalculator.collectAux, StraightDodgeCalculator.collectAux]
        rw [show n + 0 + 1 = n + 1 by omega] at hnone
        rw [hnone]
  | succ k ih =>
    intro fuel fuel2 n hk1 hk2 hnone
    cases fuel with
    | zero => omega
    | succ f =>
      cases fuel2 with
      | zero => omega
      | succ f2 =>
        rw [StraightDodgeCalculator.collectAux, StraightDodgeCalculator.collectAux]
        rcases he : sdc.evaluate (sdc.approachCar (n + 1)) with _ | d
        · rfl
        · show d :: sdc.collectAux f (n + 1) = d :: sdc.collectAux f2 (n + 1)
          have harg : n + 1 + k + 1 = n + (k + 1) + 1 := by omega
          rw [ih f f2 (n + 1) (by omega) (by omega) (by rw [harg]; exact hnone)]

/-- The fuel given to the collect loop always suffices: by then the
approach alone has covered the target distance, so evaluation rejects
the dodge and the loop has stopped. -/
theorem collect_fuel_adequate (ss sb td chop : ℚ) (hss : 0 ≤ ss) :
    ∃ k, k < collectFuel (StraightDodgeCalculator.mk ss sb td none chop) ∧
      (StraightDodgeCalculator.mk ss sb td none chop).evaluate
        ((StraightDodgeCalculator.mk ss sb td none chop).approachCar (k + 1)) = none := by
  have hdt : (0:ℚ) < PHYSICS_DT := by norm_num [PHYSICS_DT]
  have hsd := smin_dt_pos
  refine ⟨Int.toNat ⌈td / (SMIN * PHYSICS_DT)⌉ + 1, ?_, ?_⟩
  · show Int.toNat ⌈td / (SMIN * PHYSICS_DT)⌉ + 1 <
      2 + Int.toNat ⌈td / (SMIN * PHYSICS_DT)⌉
    omega
  · set T := Int.toNat ⌈td / (SMIN * PHYSICS_DT)⌉ with hT
    set c0 : Car1D := (Car1D.mk0 ss).with_boost sb with hc0
    have hc0s : c0.speed = ss := rfl
    have hc0d : c0.dist = 0 := rfl
    set m := (T + 1 + 1) * Int.toNat ⌈GRANULARITY / PHYSICS_DT⌉ with hm
    have hgran : Int.toNat ⌈GRANULARITY / PHYSICS_DT⌉ = 12 := by
      have h12 : (GRANULARITY / PHYSICS_DT : ℚ) = 12 := by
        norm_num [GRANULARITY, PHYSICS_DT]
      rw [h12]
      norm_num
      decide
    have hm12 : m = (T + 1 + 1) * 12 := by rw [hm, hgran]
    have happ : (StraightDodgeCalculator.mk ss sb td none chop).approachCar
        (T + 1 + 1) = c0.stepN m PHYSICS_DT 1 true := rfl
    -- the approach distance alone reaches the target
    have hdist : td ≤ (c0.stepN m PHYSICS_DT 1 true).dist := by
      have hm1 : m = (m - 1) + 1 := by omega
      rw [hm1, stepN_succ]
      have hs1 : SMIN ≤ (c0.step PHYSICS_DT 1 true).speed :=
        blitz_step_speed_lb c0 (by rw [hc0s]; exact hss)
      have hs1n : 0 ≤ (c0.step PHYSICS_DT 1 true).speed := step_speed_nonneg _ _ _ _
      have hs1m : (c0.step PHYSICS_DT 1 true).speed ≤ MAX_SPEED := step_speed_le _ _ _ _
      have hge := blitz_stepN_dist_ge (c0.step PHYSICS_DT 1 true) (m - 1) hs1n hs1m
      have hd1 : (c0.step PHYSICS_DT 1 true).dist = c0.dist + c0.speed * PHYSICS_DT :=
        step_dist _ _ _ _
      have hd1n : 0 ≤ (c0.step PHYSICS_DT 1 true).dist := by
        rw [hd1, hc0d, hc0s]
        have : 0 ≤ ss * PHYSICS_DT := mul_nonneg hss (le_of_lt hdt)
        linarith
      have hTm : T ≤ m - 1 := by omega
      have hsp : ((m - 1 : ℕ) : ℚ) * (SMIN * PHYSICS_DT) ≤
          ((m - 1 : ℕ) : ℚ) * ((c0.step PHYSICS_DT 1 true).speed * PHYSICS_DT) := by
        refine mul_le_mul_of_nonneg_left ?_ (Nat.cast_nonneg _)
        nlinarith
      have hTle : (T : ℚ) ≤ ((m - 1 : ℕ) : ℚ) := by exact_mod_cast hTm
      rcases le_or_lt td 0 with hcase | hcase
      · have h0m : (0:ℚ) ≤ ((m - 1 : ℕ) : ℚ) * (SMIN * PHYSICS_DT) := by positivity
        nlinarith [hge, hsp]
      · have hq : td / (SMIN * PHYSICS_DT) ≤ ((T : ℤ) : ℚ) := by
          rw [hT]
          refine le_trans (Int.le_ceil _) ?_
          exact_mod_cast Int.self_le_toNat _
        have hTd : td ≤ (T : ℚ) * (SMIN * PHYSICS_DT) := by
          rw [div_le_iff hsd] at hq
          exact_mod_cast hq
        have hsm : (T : ℚ) * (SMIN * PHYSICS_DT) ≤
            ((m - 1 : ℕ) : ℚ) * (SMIN * PHYSICS_DT) := by nlinarith
        nlinarith [hge, hsp]
    -- evaluation rejects: the total distance is at least the target
    rw [happ]
    simp only [StraightDodgeCalculator.evaluate, Car1D.multi_step]
    simp only [Bool.true_eq_false, if_false]
    rw [if_pos]
    have hap0 : 0 ≤ (c0.stepN m PHYSICS_DT 1 true).speed :=
      stepN_speed_nonneg _ _ _ _ _ (by rw [hc0s]; exact hss)
    have hed : 0 ≤ (CarForwardDodge.calc_1d (c0.stepN m PHYSICS_DT 1 true).speed).end_dist := by
      rw [CarForwardDodge.calc_1d]
      simp only []
      nlinarith
    have hcoast : 0 ≤ (((Car1D.mk0 (CarForwardDodge.calc_1d
        (c0.stepN m PHYSICS_DT 1 true).speed).end_speed).with_boost
        (c0.stepN m PHYSICS_DT 1 true).boost).stepN
        (Int.toNat ⌈chop / PHYSICS_DT⌉) PHYSICS_DT 0 false).dist := by
      have hsp0 : 0 ≤ ((Car1D.mk0 (CarForwardDodge.calc_1d
          (c0.stepN m PHYSICS_DT 1 true).speed).end_speed).with_boost
          (c0.stepN m PHYSICS_DT 1 true).boost).speed := by
        show (0:ℚ) ≤ (CarForwardDodge.calc_1d (c0.stepN m PHYSICS_DT 1 true).speed).end_speed
        rw [CarForwardDodge.calc_1d]
        exact le_min (by nlinarith) (by norm_num)
      have := stepN_dist_mono ((Car1D.mk0 (CarForwardDodge.calc_1d
          (c0.stepN m PHYSICS_DT 1 true).speed).end_speed).with_boost
          (c0.stepN m PHYSICS_DT 1 true).boost) 0 (Int.toNat ⌈chop / PHYSICS_DT⌉)
          PHYSICS_DT 0 false (le_of_lt hdt) hsp0
      simpa [stepN_zero] using this
    linarith

/-- Claim C6: for a fixed start state and target and no target time,
increasing the reserved end_chop dead time never decreases the selected
(minimum-score) dodge's total predicted time to target. -/
theorem straight_dodge_end_chop_monotone (ss sb td chop1 chop2 : ℚ)
    (hss : 0 ≤ ss) (hcc : chop1 ≤ chop2) (d1 d2 : StraightDodge)
    (h1 : (StraightDodgeCalculator.mk ss sb td none chop1).chosen = some d1)
    (h2 : (StraightDodgeCalculator.mk ss sb td none chop2).chosen = some d2) :
    d1.score ≤ d2.score := by
  rw [StraightDodgeCalculator.chosen] at h1 h2
  have hmem2 := minByKey_mem _ _ _ h2
  rw [StraightDodgeCalculator.collect] at hmem2
  obtain ⟨j, hj1, hjf, hje, hjp⟩ := mem_collectAux _ _ _ _ hmem2
  obtain ⟨dd1, hdd1, hsc⟩ := evaluate_chop_mono ss sb td chop1 chop2 _
    (approachCar_speed_nonneg (StraightDodgeCalculator.mk ss sb td none chop2) hss _)
    hcc d2 hje
  have hpre1 : ∀ i, 1 ≤ i → i < j →
      ((StraightDodgeCalculator.mk ss sb td none chop1).evaluate
        ((StraightDodgeCalculator.mk ss sb td none chop1).approachCar (0 + i))).isSome
        = true := by
    intro i hi1 hij
    obtain ⟨e, he⟩ := Option.isSome_iff_exists.mp (hjp i hi1 hij)
    obtain ⟨e1, he1, _⟩ := evaluate_chop_mono ss sb td chop1 chop2 _
      (approachCar_speed_nonneg (StraightDodgeCalculator.mk ss sb td none chop2) hss _)
      hcc e he
    have he2 : (StraightDodgeCalculator.mk ss sb td none chop1).evaluate
        ((StraightDodgeCalculator.mk ss sb td none chop1).approachCar (0 + i)) =
        some e1 := he1
    rw [he2]
    rfl
  have hdd2 : (StraightDodgeCalculator.mk ss sb td none chop1).evaluate
      ((StraightDodgeCalculator.mk ss sb td none chop1).approachCar (0 + j)) =
      some dd1 := hdd1
  have hmem1 : dd1 ∈ (StraightDodgeCalculator.mk ss sb td none chop1).collect := by
    rw [StraightDodgeCalculator.collect]
    exact collectAux_mem_of _ _ 0 j dd1 hj1 hjf hdd2 hpre1
  exact le_trans (minByKey_le _ _ _ h1 dd1 hmem1) hsc

/-- Closed form of full-throttle stepping at the speed cap with no
boost: time and distance advance linearly, speed stays capped. -/
theorem steady_blitz_closed (t d : ℚ) : ∀ (n : Nat),
    (Car1D.mk t d 2300 0).stepN n PHYSICS_DT 1 true =
      Car1D.mk (t + n * (1 / 120)) (d + n * (115 / 6)) 2300 0 := by
  intro n
  induction n generalizing t d with
  | zero =>
    rw [stepN_zero]
    norm_num
  | succ n ih =>
    rw [stepN_succ]
    have hstep : (Car1D.mk t d 2300 0).step PHYSICS_DT 1 true =
        Car1D.mk (t + 1 / 120) (d + 115 / 6) 2300 0 := by
      simp only [Car1D.step]
      norm_num [PHYSICS_DT, THROTTLE_ACCEL, BOOST_ACCEL, MAX_SPEED, min_def, max_def]
    rw [hstep, ih]
    simp only [Car1D.mk.injEq]
    push_cast
    refine ⟨by ring, by ring, trivial, trivial⟩

/-- Closed form of full-throttle stepping from speed 2299 with no
boost: one step reaches the cap, then the steady closed form holds. -/
theorem blitz2299_closed (k : Nat) :
    (Car1D.mk 0 0 2299 0).stepN (k + 1) PHYSICS_DT 1 true =
      Car1D.mk ((k + 1) * (1 / 120)) (2299 / 120 + k * (115 / 6)) 2300 0 := by
  rw [stepN_succ]
  have hstep : (Car1D.mk 0 0 2299 0).step PHYSICS_DT 1 true =
      Car1D.mk (1 / 120) (2299 / 120) 2300 0 := by
    simp only [Car1D.step]
    norm_num [PHYSICS_DT, THROTTLE_ACCEL, BOOST_ACCEL, MAX_SPEED, min_def, max_def]
  rw [hstep, steady_blitz_closed]
  simp only [Car1D.mk.injEq]
  refine ⟨by ring, by ring, trivial, trivial⟩

/-- The blitz step count is pinned by reaching the target at N but not
at N - 1. -/
theorem blitzSteps_eq_of (c : Car1D) (target : ℚ) (N : Nat) (h0 : 0 ≤ c.speed)
    (hN : target ≤ (c.stepN N PHYSICS_DT 1 true).dist)
    (hprev : (c.stepN (N - 1) PHYSICS_DT 1 true).dist < target)
    (hN1 : 1 ≤ N) : blitzSteps c target = N := by
  have hle := blitzSteps_min c target h0 N hN
  rcases Nat.lt_or_ge (blitzSteps c target) N with hlt | hge
  · exfalso
    have hmono := stepN_dist_mono c (blitzSteps c target)
      (N - 1 - blitzSteps c target) PHYSICS_DT 1 true
      (by norm_num [PHYSICS_DT]) h0
    rw [show blitzSteps c target + (N - 1 - blitzSteps c target) = N - 1 by omega]
      at hmono
    have hreach := blitzSteps_reaches c target h0
    linarith
  · omega

/-- The approach car after one granularity step from the capped start
speed. -/
theorem approach2300_1 (chop : ℚ) :
    (StraightDodgeCalculator.mk 2300 0 3700 none chop).approachCar 1 =
      Car1D.mk (1 / 10) 230 2300 0 := by
  have hgran : Int.toNat ⌈GRANULARITY / PHYSICS_DT⌉ = 12 := by
    have h12 : (GRANULARITY / PHYSICS_DT : ℚ) = 12 := by
      norm_num [GRANULARITY, PHYSICS_DT]
    rw [h12]
    norm_num
    decide
  rw [StraightDodgeCalculator.approachCar]
  have hcount : 1 * Int.toNat ⌈GRANULARITY / PHYSICS_DT⌉ = 12 := by rw [hgran]
  rw [hcount]
  have hc0 : (Car1D.mk0 (StraightDodgeCalculator.mk 2300 0 3700 none chop).start_speed).with_boost
      (StraightDodgeCalculator.mk 2300 0 3700 none chop).start_boost =
      Car1D.mk 0 0 2300 0 := rfl
  rw [hc0, steady_blitz_closed]
  norm_num

/-- The approach car after two granularity steps from the capped start
speed. -/
theorem approach2300_2 (chop : ℚ) :
    (StraightDodgeCalculator.mk 2300 0 3700 none chop).approachCar 2 =
      Car1D.mk (1 / 5) 460 2300 0 := by
  have hgran : Int.toNat ⌈GRANULARITY / PHYSICS_DT⌉ = 12 := by
    have h12 : (GRANULARITY / PHYSICS_DT : ℚ) = 12 := by
      norm_num [GRANULARITY, PHYSICS_DT]
    rw [h12]
    norm_num
    decide
  rw [StraightDodgeCalculator.approachCar]
  have hcount : 2 * Int.toNat ⌈GRANULARITY / PHYSICS_DT⌉ = 24 := by rw [hgran]
  rw [hcount]
  have hc0 : (Car1D.mk0 (StraightDodgeCalculator.mk 2300 0 3700 none chop).start_speed).with_boost
      (StraightDodgeCalculator.mk 2300 0 3700 none chop).start_boost =
      Car1D.mk 0 0 2300 0 := rfl
  rw [hc0, steady_blitz_closed]
  norm_num

/-- The rejection branch of evaluate with no target time, stated as a
formula. -/
theorem evaluate_none_formula (ss sb td chop : ℚ) (ap : Car1D)
    (hcond : td ≤ ap.dist + (CarForwardDodge.calc_1d ap.speed).end_dist +
      (((Car1D.mk0 (CarForwardDodge.calc_1d ap.speed).end_speed).with_boost ap.boost).stepN
        (Int.toNat ⌈chop / PHYSICS_DT⌉) PHYSICS_DT 0 false).dist) :
    (StraightDodgeCalculator.mk ss sb td none chop).evaluate ap = none := by
  simp only [StraightDodgeCalculator.evaluate, Car1D.multi_step]
  simp only [Bool.true_eq_false, if_false]
  rw [if_pos hcond]

/-- The acceptance branch of evaluate with no target time, stated as a
formula. -/
theorem evaluate_some_formula (ss sb td chop : ℚ) (ap : Car1D)
    (hcond : ¬ td ≤ ap.dist + (CarForwardDodge.calc_1d ap.speed).end_dist +
      (((Car1D.mk0 (CarForwardDodge.calc_1d ap.speed).end_speed).with_boost ap.boost).stepN
        (Int.toNat ⌈chop / PHYSICS_DT⌉) PHYSICS_DT 0 false).dist) :
    (StraightDodgeCalculator.mk ss sb td none chop).evaluate ap = some
      { approach_distance := ap.dist
        dodge := CarForwardDodge.calc_1d ap.speed
        score := ap.time + (CarForwardDodge.calc_1d ap.speed).duration +
          (((Car1D.mk0 (CarForwardDodge.calc_1d ap.speed).end_speed).with_boost ap.boost).stepN
            (Int.toNat ⌈chop / PHYSICS_DT⌉) PHYSICS_DT 0 false).time +
          (((Car1D.mk0 (CarForwardDodge.calc_1d ap.speed).end_speed).with_boost ap.boost).stepN
            (blitzSteps ((Car1D.mk0 (CarForwardDodge.calc_1d ap.speed).end_speed).with_boost ap.boost)
              (td - (ap.dist + (CarForwardDodge.calc_1d ap.speed).end_dist +
                (((Car1D.mk0 (CarForwardDodge.calc_1d ap.speed).end_speed).with_boost ap.boost).stepN
                  (Int.toNat ⌈chop / PHYSICS_DT⌉) PHYSICS_DT 0 false).dist)))
            PHYSICS_DT 1 true).time } := by
  simp only [StraightDodgeCalculator.evaluate, Car1D.multi_step]
  simp only [Bool.true_eq_false, if_false]
  rw [if_neg hcond]

/-- The dodge signature from the capped speed. -/
theorem calc_1d_2300 :
    CarForwardDodge.calc_1d ((2300:ℚ)) = CarForwardDodge1D.mk 2299 3315 (13 / 10) := by
  rw [CarForwardDodge.calc_1d]
  norm_num [min_def]

/-- The blitz from a standing start at 2299 needs 9 steps to cover
155 distance units. -/
theorem blitzSteps_2299_155 : blitzSteps (Car1D.mk 0 0 2299 0) 155 = 9 := by
  refine blitzSteps_eq_of _ _ 9 (by norm_num) ?_ ?_ (by norm_num)
  · rw [show (9:ℕ) = 8 + 1 from rfl, blitz2299_closed]
    norm_num
  · rw [show (9:ℕ) - 1 = 7 + 1 from rfl, blitz2299_closed]
    norm_num

/-- The blitz from a standing start at 2299 needs 8 steps to cover
16301/120 distance units. -/
theorem blitzSteps_2299_short : blitzSteps (Car1D.mk 0 0 2299 0) (16301 / 120) = 8 := by
  refine blitzSteps_eq_of _ _ 8 (by norm_num) ?_ ?_ (by norm_num)
  · rw [show (8:ℕ) = 7 + 1 from rfl, blitz2299_closed]
    norm_num
  · rw [show (8:ℕ) - 1 = 6 + 1 from rfl, blitz2299_closed]
    norm_num

/-- One coasting step from 2299. -/
theorem coast2299_1 : (Car1D.mk 0 0 2299 0).stepN 1 PHYSICS_DT 0 false =
    Car1D.mk (1 / 120) (2299 / 120) (18357 / 8) 0 := by
  rw [show (1:ℕ) = 0 + 1 from rfl, stepN_succ, stepN_zero]
  simp only [Car1D.step]
  norm_num [PHYSICS_DT, COAST_DECEL, MAX_SPEED, min_def, max_def]

/-- Zero chop means a zero-length coast. -/
theorem chop0_count : Int.toNat ⌈(0:ℚ) / PHYSICS_DT⌉ = 0 := by
  norm_num

/-- A chop of one tick means a one-step coast. -/
theorem chop1_count : Int.toNat ⌈(1 / 120 : ℚ) / PHYSICS_DT⌉ = 1 := by
  rw [show ((1 / 120 : ℚ) / PHYSICS_DT) = 1 by norm_num [PHYSICS_DT]]
  norm_num

/-- Evaluation at the first approach sample with zero chop. -/
theorem eval2300_A1_chop0 :
    (StraightDodgeCalculator.mk 2300 0 3700 none 0).evaluate (Car1D.mk (1 / 10) 230 2300 0) =
      some (StraightDodge.mk 230 (CarForwardDodge1D.mk 2299 3315 (13 / 10)) (59 / 40)) := by
  have hA1d : (Car1D.mk (1 / 10) 230 (2300:ℚ) 0).dist = 230 := rfl
  have hA1s : (Car1D.mk (1 / 10) 230 (2300:ℚ) 0).speed = 2300 := rfl
  have hA1t : (Car1D.mk (1 / 10) 230 (2300:ℚ) 0).time = 1 / 10 := rfl
  have hA1b : (Car1D.mk (1 / 10) 230 (2300:ℚ) 0).boost = 0 := rfl
  have hcs : (Car1D.mk0 (CarForwardDodge.calc_1d
      (Car1D.mk (1 / 10) 230 (2300:ℚ) 0).speed).end_speed).with_boost
      (Car1D.mk (1 / 10) 230 (2300:ℚ) 0).boost = Car1D.mk 0 0 2299 0 := by
    rw [hA1s, hA1b, calc_1d_2300]
    rfl
  have key := evaluate_some_formula 2300 0 3700 0 (Car1D.mk (1 / 10) 230 2300 0) (by
    rw [hcs, chop0_count, stepN_zero, hA1d, hA1s, calc_1d_2300]
    norm_num)
  rw [key, hcs, chop0_count, stepN_zero, hA1d, hA1t, hA1s, calc_1d_2300]
  have harg : (3700:ℚ) - (230 + (CarForwardDodge1D.mk (2299:ℚ) 3315 (13 / 10)).end_dist +
      (Car1D.mk (0:ℚ) 0 2299 0).dist) = 155 := by norm_num
  rw [harg, blitzSteps_2299_155, show (9:ℕ) = 8 + 1 from rfl, blitz2299_closed]
  norm_num

/-- Evaluation at the first approach sample with a one-tick chop. -/
theorem eval2300_A1_chop1 :
    (StraightDodgeCalculator.mk 2300 0 3700 none (1 / 120)).evaluate
      (Car1D.mk (1 / 10) 230 2300 0) =
      some (StraightDodge.mk 230 (CarForwardDodge1D.mk 2299 3315 (13 / 10)) (59 / 40)) := by
  have hA1d : (Car1D.mk (1 / 10) 230 (2300:ℚ) 0).dist = 230 := rfl
  have hA1s : (Car1D.mk (1 / 10) 230 (2300:ℚ) 0).speed = 2300 := rfl
  have hA1t : (Car1D.mk (1 / 10) 230 (2300:ℚ) 0).time = 1 / 10 := rfl
  have hA1b : (Car1D.mk (1 / 10) 230 (2300:ℚ) 0).boost = 0 := rfl
  have hcs : (Car1D.mk0 (CarForwardDodge.calc_1d
      (Car1D.mk (1 / 10) 230 (2300:ℚ) 0).speed).end_speed).with_boost
      (Car1D.mk (1 / 10) 230 (2300:ℚ) 0).boost = Car1D.mk 0 0 2299 0 := by
    rw [hA1s, hA1b, calc_1d_2300]
    rfl
  have key := evaluate_some_formula 2300 0 3700 (1 / 120) (Car1D.mk (1 / 10) 230 2300 0) (by
    rw [hcs, chop1_count, coast2299_1, hA1d, hA1s, calc_1d_2300]
    norm_num)
  rw [key, hcs, chop1_count, coast2299_1, hA1d, hA1t, hA1s, calc_1d_2300]
  have harg : (3700:ℚ) - (230 + (CarForwardDodge1D.mk (2299:ℚ) 3315 (13 / 10)).end_dist +
      (Car1D.mk (1 / 120 : ℚ) (2299 / 120) (18357 / 8) 0).dist) = 16301 / 120 := by norm_num
  rw [harg, blitzSteps_2299_short, show (8:ℕ) = 7 + 1 from rfl, blitz2299_closed]
  norm_num

/-- Evaluation at the second approach sample with zero chop: the
approach plus dodge already overshoots. -/
theorem eval2300_A2_chop0 :
    (StraightDodgeCalculator.mk 2300 0 3700 none 0).evaluate (Car1D.mk (1 / 5) 460 2300 0) =
      none := by
  have hA2d : (Car1D.mk (1 / 5) 460 (2300:ℚ) 0).dist = 460 := rfl
  have hA2s : (Car1D.mk (1 / 5) 460 (2300:ℚ) 0).speed = 2300 := rfl
  have hA2b : (Car1D.mk (1 / 5) 460 (2300:ℚ) 0).boost = 0 := rfl
  have hcs : (Car1D.mk0 (CarForwardDodge.calc_1d
      (Car1D.mk (1 / 5) 460 (2300:ℚ) 0).speed).end_speed).with_boost
      (Car1D.mk (1 / 5) 460 (2300:ℚ) 0).boost = Car1D.mk 0 0 2299 0 := by
    rw [hA2s, hA2b, calc_1d_2300]
    rfl
  exact evaluate_none_formula 2300 0 3700 0 (Car1D.mk (1 / 5) 460 2300 0) (by
    rw [hcs, chop0_count, stepN_zero, hA2d, hA2s, calc_1d_2300]
    norm_num)

/-- Evaluation at the second approach sample with a one-tick chop:
still an overshoot. -/
theorem eval2300_A2_chop1 :
    (StraightDodgeCalculator.mk 2300 0 3700 none (1 / 120)).evaluate
      (Car1D.mk (1 / 5) 460 2300 0) = none := by
  have hA2d : (Car1D.mk (1 / 5) 460 (2300:ℚ) 0).dist = 460 := rfl
  have hA2s : (Car1D.mk (1 / 5) 460 (2300:ℚ) 0).speed = 2300 := rfl
  have hA2b : (Car1D.mk (1 / 5) 460 (2300:ℚ) 0).boost = 0 := rfl
  have hcs : (Car1D.mk0 (CarForwardDodge.calc_1d
      (Car1D.mk (1 / 5) 460 (2300:ℚ) 0).speed).end_speed).with_boost
      (Car1D.mk (1 / 5) 460 (2300:ℚ) 0).boost = Car1D.mk 0 0 2299 0 := by
    rw [hA2s, hA2b, calc_1d_2300]
    rfl
  exact evaluate_none_formula 2300 0 3700 (1 / 120) (Car1D.mk (1 / 5) 460 2300 0) (by
    rw [hcs, chop1_count, coast2299_1, hA2d, hA2s, calc_1d_2300]
    norm_num)

/-- A collect run that accepts exactly one candidate. -/
theorem collectAux_two (sdc : StraightDodgeCalculator) (d : StraightDodge)
    (h1 : sdc.evaluate (sdc.approachCar 1) = some d)
    (h2 : sdc.evaluate (sdc.approachCar 2) = none) :
    sdc.collectAux 2 0 = [d] := by
  rw [show (2:ℕ) = Nat.succ (Nat.succ 0) from rfl]
  rw [StraightDodgeCalculator.collectAux]
  rw [show (0 + 1 : ℕ) = 1 from rfl, h1]
  show d :: sdc.collectAux (Nat.succ 0) 1 = [d]
  rw [StraightDodgeCalculator.collectAux]
  rw [show (1 + 1 : ℕ) = 2 from rfl, h2]

/-- The candidate list at zero chop. -/
theorem collect2300_chop0 :
    (StraightDodgeCalculator.mk 2300 0 3700 none 0).collect =
      [StraightDodge.mk 230 (CarForwardDodge1D.mk 2299 3315 (13 / 10)) (59 / 40)] := by
  rw [StraightDodgeCalculator.collect]
  have hful : 1 < collectFuel (StraightDodgeCalculator.mk 2300 0 3700 none 0) := by
    show 1 < 2 + Int.toNat ⌈(3700:ℚ) / (SMIN * PHYSICS_DT)⌉
    omega
  have hnone : (StraightDodgeCalculator.mk 2300 0 3700 none 0).evaluate
      ((StraightDodgeCalculator.mk 2300 0 3700 none 0).approachCar (0 + 1 + 1)) = none := by
    rw [show (0 + 1 + 1 : ℕ) = 2 from rfl, approach2300_2]
    exact eval2300_A2_chop0
  rw [collectAux_stable _ 1 _ 2 0 hful (by omega) hnone]
  exact collectAux_two _ _ (by rw [approach2300_1]; exact eval2300_A1_chop0)
    (by rw [approach2300_2]; exact eval2300_A2_chop0)

/-- The candidate list at a one-tick chop. -/
theorem collect2300_chop1 :
    (StraightDodgeCalculator.mk 2300 0 3700 none (1 / 120)).collect =
      [StraightDodge.mk 230 (CarForwardDodge1D.mk 2299 3315 (13 / 10)) (59 / 40)] := by
  rw [StraightDodgeCalculator.collect]
  have hful : 1 < collectFuel (StraightDodgeCalculator.mk 2300 0 3700 none (1 / 120)) := by
    show 1 < 2 + Int.toNat ⌈(3700:ℚ) / (SMIN * PHYSICS_DT)⌉
    omega
  have hnone : (StraightDodgeCalculator.mk 2300 0 3700 none (1 / 120)).evaluate
      ((StraightDodgeCalculator.mk 2300 0 3700 none (1 / 120)).approachCar (0 + 1 + 1)) =
      none := by
    rw [show (0 + 1 + 1 : ℕ) = 2 from rfl, approach2300_2]
    exact eval2300_A2_chop1
  rw [collectAux_stable _ 1 _ 2 0 hful (by omega) hnone]
  exact collectAux_two _ _ (by rw [approach2300_1]; exact eval2300_A1_chop1)
    (by rw [approach2300_2]; exact eval2300_A2_chop1)

/-- The chosen dodge at zero chop. -/
theorem chosen2300_chop0 :
    (StraightDodgeCalculator.mk 2300 0 3700 none 0).chosen =
      some (StraightDodge.mk 230 (CarForwardDodge1D.mk 2299 3315 (13 / 10)) (59 / 40)) := by
  rw [StraightDodgeCalculator.chosen, collect2300_chop0]
  rfl

/-- The chosen dodge at a one-tick chop. -/
theorem chosen2300_chop1 :
    (StraightDodgeCalculator.mk 2300 0 3700 none (1 / 120)).chosen =
      some (StraightDodge.mk 230 (CarForwardDodge1D.mk 2299 3315 (13 / 10)) (59 / 40)) := by
  rw [StraightDodgeCalculator.chosen, collect2300_chop1]
  rfl

/-- Witness for claim C6: at start speed 2300 with no boost, target
distance 3700 and chops 0 and 1/120, both runs choose a dodge and the
monotonicity theorem applies, giving the score comparison concretely. -/
theorem straight_dodge_end_chop_monotone_witness :
    (StraightDodgeCalculator.mk 2300 0 3700 none 0).chosen =
      some (StraightDodge.mk 230 (CarForwardDodge1D.mk 2299 3315 (13 / 10)) (59 / 40)) ∧
    (StraightDodgeCalculator.mk 2300 0 3700 none (1 / 120)).chosen =
      some (StraightDodge.mk 230 (CarForwardDodge1D.mk 2299 3315 (13 / 10)) (59 / 40)) ∧
    (StraightDodge.mk 230 (CarForwardDodge1D.mk 2299 3315 (13 / 10)) (59 / 40)).score ≤
      (StraightDodge.mk 230 (CarForwardDodge1D.mk 2299 3315 (13 / 10)) (59 / 40)).score :=
  ⟨chosen2300_chop0, chosen2300_chop1,
    straight_dodge_end_chop_monotone 2300 0 3700 0 (1 / 120) (by norm_num) (by norm_num)
      _ _ chosen2300_chop0 chosen2300_chop1⟩

end SDC
